import Mathlib

/-! lvmts: extent stores (`extents.c`), tier lookups and value parsers (`config.c`).

A shallow embedding of the C functions of the repository, followed by the
properties proved about them.

Conventions of the embedding.

* A C call either returns a value, stops in a failed `assert`, or runs into
  undefined behaviour (a read outside the allocated block); `Outcome` records
  which.  Loops are unrolled by structural recursion on a fuel counter; the
  fourth outcome `out_of_fuel` is never the result of a top-level function when
  the theorems below say `ret`.
* A `float` is only ever compared, never computed with, in `extents.c`.  A
  value is therefore either NaN or an ordinary number `num v`, with `v` taken
  from a linearly ordered type `α` (the extended reals for IEEE floats; `+0`
  and `-0` denote the same `v`).  Every comparison with NaN is false.
* `size_t` is 64 bits wide, `int` is 32 bits wide, `long` is 64 bits wide;
  arithmetic on `long` wraps into two's complement.
* A C string is the list of its characters; reading past its end, or at a
  NUL inside the list, yields the terminating NUL.
-/

set_option linter.dupNamespace false

namespace Lvmts

/-! ## Outcomes of a C call -/

/-- Result of running a C function: a returned value, a failed `assert`,
undefined behaviour, or an exhausted fuel counter of the model. -/
inductive Outcome (β : Type) where
  | ret (v : β) : Outcome β
  | abort : Outcome β
  | undefined : Outcome β
  | out_of_fuel : Outcome β
deriving DecidableEq, Repr

/-! ## Floats as far as comparison sees them -/

/-- A C `float` for the purposes of `==`, `<` and `>`. -/
inductive cfloat (α : Type) where
  | nan : cfloat α
  | num (v : α) : cfloat α
deriving DecidableEq, Repr

namespace cfloat

variable {α : Type} [LinearOrder α]

/-- C `a == b` on floats. -/
def eq : cfloat α → cfloat α → Bool
  | num a, num b => decide (a = b)
  | _, _ => false

/-- C `a > b` on floats. -/
def gt : cfloat α → cfloat α → Bool
  | num a, num b => decide (b < a)
  | _, _ => false

/-- C `a < b` on floats. -/
def lt : cfloat α → cfloat α → Bool
  | num a, num b => decide (a < b)
  | _, _ => false

/-- The value is an ordinary number, not NaN. -/
def isNum : cfloat α → Bool
  | num _ => true
  | nan => false

end cfloat

/-! ## `struct extent` and `struct extents` -/

/-- Modelled from the spec: `struct extent` is declared in `extents.h`, which is
not among the sources.  `extents.c` reads only its `float score` member, which
the spec names as the only externally meaningful value of an extent. -/
structure extent (α : Type) where
  score : cfloat α
deriving DecidableEq, Repr

/-- Modelled from the spec: `struct extents` is declared in `extents.h`.  Its two
members used by `extents.c` are the pointer `extents` to the backing array
(`none` is `NULL`; `some mem` is an allocated block holding `mem.length`
extents) and the `size_t length`. -/
structure extents (α : Type) where
  extents : Option (List (extent α))
  length : Nat
deriving DecidableEq, Repr

/-- `SIZE_MAX` for a 64-bit `size_t`. -/
def SIZE_MAX : Nat := 2 ^ 64 - 1

/-- `INT_MAX` for a 32-bit `int`. -/
def INT_MAX : Nat := 2 ^ 31 - 1

/-- `INT_MIN` for a 32-bit `int`. -/
def INT_MIN : Int := -(2 ^ 31)

/-- Conversion of a `long` to `int`, as on assignment to an `int` variable and
on return from an `int` function (two's complement, 32 bits). -/
def long_to_int (x : Int) : Int := (x + 2 ^ 31) % 2 ^ 32 - 2 ^ 31

section store

variable {α : Type}

/-- The read `e->extents[i]`: defined only inside the allocated block. -/
def read_extent (e : extents α) (i : Nat) : Option (extent α) :=
  match e.extents with
  | none => none
  | some mem => mem.get? i

/-- The number of extents the allocated block has room for (0 for `NULL`). -/
def capacity (e : extents α) : Nat :=
  match e.extents with
  | none => 0
  | some mem => mem.length

/-- The store invariant of the data model: `length` does not exceed the
allocated capacity, and `length` is a `size_t`. -/
def extents_wf (e : extents α) : Prop :=
  e.length ≤ SIZE_MAX ∧ e.length ≤ capacity e

instance (e : extents α) : Decidable (extents_wf e) :=
  inferInstanceAs (Decidable (e.length ≤ SIZE_MAX ∧ e.length ≤ capacity e))

/-- The scores of the store in stored order, positions `0 .. length-1`. -/
def extents_scores (e : extents α) : List (cfloat α) :=
  match e.extents with
  | none => []
  | some mem => (mem.take e.length).map extent.score

end store

/-! ## `compare_extents` -/

section compare

variable {α : Type} [LinearOrder α]

/-- The `for` loop of `compare_extents` from index `i` on, followed by the
length comparison after the loop.  The loop condition is the source's
`i < e1->length && e2->length && i < SIZE_MAX`. -/
def compare_loop (e1 e2 : extents α) : Nat → Nat → Outcome Int
  | 0, _ => Outcome.out_of_fuel
  | fuel + 1, i =>
    if i < e1.length ∧ e2.length ≠ 0 ∧ i < SIZE_MAX then
      match read_extent e1 i, read_extent e2 i with
      | some a, some b =>
        if cfloat.eq a.score b.score then compare_loop e1 e2 fuel (i + 1)
        else if cfloat.gt a.score b.score then Outcome.ret 1
        else Outcome.ret (-1)
      | _, _ => Outcome.undefined
    else if e1.length < e2.length then Outcome.ret (-1)
    else if e1.length > e2.length then Outcome.ret 1
    else Outcome.ret 0

/-- `compare_extents(e1, e2)`; both pointers are non-null by construction. -/
def compare_extents (e1 e2 : extents α) : Outcome Int :=
  compare_loop e1 e2 (e1.length + 1) 0

/-- The comparison in the words of the spec: lexicographic over the two score
sequences, the shorter sequence first when one is a prefix of the other. -/
def lex_compare : List (cfloat α) → List (cfloat α) → Int
  | [], [] => 0
  | [], _ :: _ => -1
  | _ :: _, [] => 1
  | a :: as, b :: bs =>
    if cfloat.eq a b then lex_compare as bs
    else if cfloat.gt a b then 1
    else -1

end compare

/-! ## `get_extent` -/

section access

variable {α : Type}

/-- `get_extent(e, nmemb)`.  The returned pointer `&(e->extents[nmemb])` is
represented by the offset `nmemb` of the slot in the backing array; the extent
it points to is `read_extent e nmemb`.  The second `assert` is the source's
`assert(e->length < nmemb)`. -/
def get_extent (e : extents α) (nmemb : Nat) : Outcome Nat :=
  if e.length < nmemb then Outcome.ret nmemb else Outcome.abort

end access

/-! ## `count_extents` -/

/-- Conversion of a `size_t` to `int` on return (two's complement, 32 bits). -/
def size_t_to_int (n : Nat) : Int :=
  if n % 2 ^ 32 < 2 ^ 31 then ((n % 2 ^ 32 : Nat) : Int)
  else ((n % 2 ^ 32 : Nat) : Int) - 2 ^ 32

section count

variable {α : Type} [LinearOrder α]

/-- The `for` loop of `count_extents` from index `i` on with the running
`count`.  `ES_COLD` and `ES_HOT` are the two direction constants of
`extents.h`, taken as parameters. -/
def count_loop (ES_COLD ES_HOT : Int) (e : extents α) (score : cfloat α)
    (hot_cold : Int) : Nat → Nat → Nat → Outcome Nat
  | 0, _, _ => Outcome.out_of_fuel
  | fuel + 1, i, count =>
    if i < e.length then
      match read_extent e i with
      | some x =>
        let count1 :=
          if hot_cold = ES_COLD ∧ cfloat.gt x.score score = true
          then (count + 1) % 2 ^ 64 else count
        let count2 :=
          if hot_cold = ES_HOT ∧ cfloat.lt x.score score = true
          then (count1 + 1) % 2 ^ 64 else count1
        count_loop ES_COLD ES_HOT e score hot_cold fuel (i + 1) count2
      | none => Outcome.undefined
    else Outcome.ret count

/-- `count_extents(e, score, hot_cold)`. -/
def count_extents (ES_COLD ES_HOT : Int) (e : extents α) (score : cfloat α)
    (hot_cold : Int) : Outcome Int :=
  match count_loop ES_COLD ES_HOT e score hot_cold (e.length + 1) 0 0 with
  | Outcome.ret count => Outcome.ret (size_t_to_int count)
  | Outcome.abort => Outcome.abort
  | Outcome.undefined => Outcome.undefined
  | Outcome.out_of_fuel => Outcome.out_of_fuel

end count

/-! ## `truncate_extents` -/

section truncate

variable {α : Type}

/-- What `realloc` hands back: a block, or `NULL` with the old block left
untouched, or `NULL` with the old block released. -/
inductive realloc_result (α : Type) where
  | block (ext : List (extent α)) : realloc_result α
  | null_kept : realloc_result α
  | null_freed : realloc_result α
deriving DecidableEq, Repr

/-- `realloc(block, sizeof(struct extent) * len)` for `len` not above the size
of the block.  The parameter `ok` says whether a block comes back; it then
holds the first `len` extents and the old block is released.  When `NULL`
comes back for a size above 0 the allocation has failed and the old block is
untouched; when `NULL` comes back for size 0 the old block has been released,
which is how the GNU C library answers `realloc(p, 0)`. -/
def realloc (ok : Bool) (block : List (extent α)) (len : Nat) :
    realloc_result α :=
  if ok then realloc_result.block (block.take len)
  else if len = 0 then realloc_result.null_freed
  else realloc_result.null_kept

/-- `truncate_extents(e, len)`; the store after the call.  On `NULL` the source
calls `free(e->extents)`: that releases the old block when it is still
allocated, and is a second `free` of the same block, undefined behaviour, when
`realloc` has released it already. -/
def truncate_extents (ok : Bool) (e : extents α) (len : Nat) :
    Outcome (extents α) :=
  match e.extents with
  | none => Outcome.abort
  | some block =>
    if e.length < len then Outcome.ret e
    else
      match realloc ok block len with
      | realloc_result.null_kept => Outcome.ret { extents := none, length := 0 }
      | realloc_result.null_freed => Outcome.undefined
      | realloc_result.block ext => Outcome.ret { extents := some ext, length := len }

end truncate

/-! ## The settings read by `config.c` -/

/-- Modelled from the spec: one `pv` section of a volume, as the external
settings provider (libconfuse, not part of the repository) hands it to
`config.c`: `(tier, pinning_score:float, device path:string, max_used_space)`,
the options declared in `pv_opts` of `read_config`.  The two integer options
are the `long` values `cfg_getint` returns. -/
structure pv_cfg (α : Type) where
  tier : Int
  pinningScore : cfloat α
  path : String
  maxUsedSpace : Int
deriving DecidableEq, Repr

/-- Modelled from the spec: one titled `volume` section with its ordered `pv`
sections (`CFG_SEC("pv", pv_opts, CFGF_TITLE | CFGF_MULTI)`); the other volume
options play no part in the tier lookups. -/
structure volume_cfg (α : Type) where
  title : String
  pv : List (pv_cfg α)
deriving DecidableEq, Repr

/-- The part of `struct program_params` the lookups use: the parsed
configuration `pp->cfg`, a sequence of `volume` sections. -/
structure program_params (α : Type) where
  cfg : List (volume_cfg α)
deriving DecidableEq, Repr

section tiers

variable {α : Type}

/-- Modelled from the spec: `cfg_gettsec(cfg, "volume", lv_name)` of the
settings provider resolves a volume by its title; `none` is `NULL`. -/
def cfg_gettsec (cfg : List (volume_cfg α)) (lv_name : String) :
    Option (volume_cfg α) :=
  cfg.find? fun v => v.title == lv_name

/-- The `for` loop of `lower_tiers_exist`, over the sections `1 ..`.  The
comparison is between the `long` tier of the section and the `int`
`highest_tier`; the assignment to `highest_tier` converts the tier to `int`. -/
def highest_tier_loop (highest_tier : Int) : List (pv_cfg α) → Int
  | [] => highest_tier
  | pv :: rest =>
    if pv.tier > highest_tier then highest_tier_loop (long_to_int pv.tier) rest
    else highest_tier_loop highest_tier rest

/-- `lower_tiers_exist(pp, lv_name, tier)`.  With no `pv` section at all,
`cfg_getnsec(tmp, "pv", 0)` is `NULL` and reading its tier is undefined.  The
tier of the first section is converted to `int` on assignment to
`highest_tier`. -/
def lower_tiers_exist (pp : program_params α) (lv_name : String) (tier : Int) :
    Outcome Int :=
  match cfg_gettsec pp.cfg lv_name with
  | none => Outcome.abort
  | some tmp =>
    match tmp.pv with
    | [] => Outcome.undefined
    | pv0 :: rest =>
      if long_to_int pv0.tier > tier then Outcome.ret 1
      else if highest_tier_loop (long_to_int pv0.tier) rest > tier then Outcome.ret 1
      else Outcome.ret 0

/-- The `for` loop of `higher_tiers_exist`, over the sections `1 ..`.  The
comparison is between the `long` tier of the section and the `int`
`lowest_tier`; the assignment to `lowest_tier` converts the tier to `int`. -/
def lowest_tier_loop (lowest_tier : Int) : List (pv_cfg α) → Int
  | [] => lowest_tier
  | pv :: rest =>
    if pv.tier < lowest_tier then lowest_tier_loop (long_to_int pv.tier) rest
    else lowest_tier_loop lowest_tier rest

/-- `higher_tiers_exist(pp, lv_name, tier)`.  The tier of the first section is
converted to `int` on assignment to `lowest_tier`. -/
def higher_tiers_exist (pp : program_params α) (lv_name : String) (tier : Int) :
    Outcome Int :=
  match cfg_gettsec pp.cfg lv_name with
  | none => Outcome.abort
  | some tmp =>
    match tmp.pv with
    | [] => Outcome.undefined
    | pv0 :: rest =>
      if long_to_int pv0.tier < tier then Outcome.ret 1
      else if lowest_tier_loop (long_to_int pv0.tier) rest < tier then Outcome.ret 1
      else Outcome.ret 0

/-- The `for` loop of `get_tier_device`: the path of the first section whose
tier is `tier`, `none` (the `NULL` after the loop) when the loop runs out. -/
def get_tier_device_loop (tier : Int) : List (pv_cfg α) → Option String
  | [] => none
  | pv :: rest =>
    if pv.tier = tier then some pv.path else get_tier_device_loop tier rest

/-- `get_tier_device(pp, lv_name, tier)`; `none` is the `NULL` result. -/
def get_tier_device (pp : program_params α) (lv_name : String) (tier : Int) :
    Outcome (Option String) :=
  match cfg_gettsec pp.cfg lv_name with
  | none => Outcome.abort
  | some tmp => Outcome.ret (get_tier_device_loop tier tmp.pv)

end tiers

/-! ## More tier lookups of `config.c` -/

section more_tiers

variable {α : Type}

/-- The `pv` section that results from a section of the configuration file in
which `tier`, `pinningScore` and `maxUsedSpace` may be left out: the table
`pv_opts` of `read_config` gives them the defaults 0, 0 and -1. -/
def cfg_pv [Zero α] (tier : Option Int) (pinningScore : Option (cfloat α))
    (path : String) (maxUsedSpace : Option Int) : pv_cfg α :=
  { tier := tier.getD 0,
    pinningScore := pinningScore.getD (cfloat.num 0),
    path := path,
    maxUsedSpace := maxUsedSpace.getD (-1) }

/-- The `for` loop of `get_device_tier`: `strcmp` returns 0 exactly on equal
strings; the `long` tier of the section is converted to the `int` the function
returns; -1 is the value after the loop. -/
def get_device_tier_loop (dev : String) : List (pv_cfg α) → Int
  | [] => -1
  | pv :: rest =>
    if pv.path = dev then long_to_int pv.tier else get_device_tier_loop dev rest

/-- `get_device_tier(pp, lv_name, dev)`. -/
def get_device_tier (pp : program_params α) (lv_name : String) (dev : String) :
    Outcome Int :=
  match cfg_gettsec pp.cfg lv_name with
  | none => Outcome.abort
  | some tmp => Outcome.ret (get_device_tier_loop dev tmp.pv)

/-- The `for` loop of `get_tier_pinning_score`; 0 after the loop. -/
def get_tier_pinning_score_loop [Zero α] (tier : Int) : List (pv_cfg α) → cfloat α
  | [] => cfloat.num 0
  | pv :: rest =>
    if pv.tier = tier then pv.pinningScore
    else get_tier_pinning_score_loop tier rest

/-- `get_tier_pinning_score(pp, lv_name, tier)`. -/
def get_tier_pinning_score [Zero α] (pp : program_params α) (lv_name : String)
    (tier : Int) : Outcome (cfloat α) :=
  match cfg_gettsec pp.cfg lv_name with
  | none => Outcome.abort
  | some vol_cfg => Outcome.ret (get_tier_pinning_score_loop tier vol_cfg.pv)

/-- The `for` loop of `get_max_space_tier`; -1 after the loop. -/
def get_max_space_tier_loop (tier : Int) : List (pv_cfg α) → Int
  | [] => -1
  | pv :: rest =>
    if pv.tier = tier then pv.maxUsedSpace else get_max_space_tier_loop tier rest

/-- `get_max_space_tier(pp, lv_name, tier)`. -/
def get_max_space_tier (pp : program_params α) (lv_name : String) (tier : Int) :
    Outcome Int :=
  match cfg_gettsec pp.cfg lv_name with
  | none => Outcome.abort
  | some tmp => Outcome.ret (get_max_space_tier_loop tier tmp.pv)

end more_tiers

/-! ## C strings, `long` and `strtol` -/

/-- `LONG_MAX` for a 64-bit `long`. -/
def LONG_MAX : Int := 2 ^ 63 - 1

/-- `LONG_MIN` for a 64-bit `long`. -/
def LONG_MIN : Int := -(2 ^ 63)

/-- A result of `long` arithmetic, wrapped into 64-bit two's complement. -/
def wrap_long (x : Int) : Int := (x + 2 ^ 63) % 2 ^ 64 - 2 ^ 63

/-- The character `*p` a pointer into a C string points to.  A string is the
list of its characters; past its end stands the terminating NUL. -/
def peek : List Char → Char
  | [] => Char.ofNat 0
  | c :: _ => c

/-- C `isspace` in the "C" locale: space, `\t`, `\n`, `\v`, `\f`, `\r`. -/
def isspace (c : Char) : Bool :=
  decide (c.toNat = 32 ∨ (9 ≤ c.toNat ∧ c.toNat ≤ 13))

/-- C `isdigit`. -/
def isdigit (c : Char) : Bool :=
  decide (48 ≤ c.toNat ∧ c.toNat ≤ 57)

/-- The number a run of decimal digits denotes. -/
def decimal_value (ds : List Char) : Nat :=
  ds.foldl (fun acc c => 10 * acc + (c.toNat - 48)) 0

/-- What a call `strtol(nptr, &endptr, 10)` leaves behind: the value returned,
the string `endptr` points to, and whether a number was converted (when none
was, `endptr == nptr`). -/
structure strtol_result where
  value : Int
  endptr : List Char
  converted : Bool
deriving DecidableEq, Repr

/-- The body of a number after optional white space: the text after an
optional sign. -/
def after_sign : List Char → List Char
  | c :: t => if c.toNat = 45 ∨ c.toNat = 43 then t else c :: t
  | [] => []

/-- `strtol(nptr, &endptr, 10)` of the C library: leading white space is
skipped, then an optional `+` or `-` and the longest run of decimal digits are
read; a value outside the range of `long` is returned as `LONG_MAX` or
`LONG_MIN`; without a digit nothing is converted, 0 is returned and `endptr`
is `nptr`. -/
def strtol (nptr : List Char) : strtol_result :=
  let s := nptr.dropWhile isspace
  let body := after_sign s
  let ds := body.takeWhile isdigit
  if ds = [] then { value := 0, endptr := nptr, converted := false }
  else
    let v : Int :=
      if (peek s).toNat = 45 then -(decimal_value ds : Int) else (decimal_value ds : Int)
    { value := if v > LONG_MAX then LONG_MAX else if v < LONG_MIN then LONG_MIN else v,
      endptr := body.dropWhile isdigit,
      converted := true }

/-- The pointer with which parsing goes on after a `switch (*endptr)`:
`endptr + 1`, but `endptr` itself at the end of the string. -/
def advance (endptr : List Char) : List Char :=
  if peek endptr ≠ Char.ofNat 0 then endptr.tail else endptr

/-! ## The value parsers of `config.c` -/

/-- The `cfg_error` reports of the two parsers. -/
inductive cfg_error where
  | not_a_number : cfg_error
  | too_large : cfg_error
  | negative : cfg_error
  | zero : cfg_error
  | whitespace : cfg_error
  | trailing : cfg_error
deriving DecidableEq, Repr

/-- Result of a value parser: `fail` is `return -1` after a `cfg_error`, with
`*result` untouched; `store v` is `*result = v; return 0`. -/
inductive parse_result where
  | fail (e : cfg_error) : parse_result
  | store (v : Int) : parse_result
deriving DecidableEq, Repr

/-- The last part of `parse_time_value`: the third `strtol` and the final
sum. -/
def parse_time_third (sum : Int) (endptr : List Char) : parse_result :=
  let r := strtol (advance endptr)
  if r.value = LONG_MAX then parse_result.fail cfg_error.too_large
  else if r.value < 0 then parse_result.fail cfg_error.negative
  else if peek r.endptr ≠ Char.ofNat 0 then parse_result.fail cfg_error.trailing
  else parse_result.store (wrap_long (sum + r.value))

/-- The middle part of `parse_time_value`: the second `strtol` and the second
`switch`. -/
def parse_time_second (sum : Int) (endptr : List Char) : parse_result :=
  let r := strtol (advance endptr)
  if r.value = LONG_MAX then parse_result.fail cfg_error.too_large
  else if r.value < 0 then parse_result.fail cfg_error.negative
  else if peek r.endptr = Char.ofNat 0 then
    parse_time_third (wrap_long (sum + r.value)) r.endptr
  else if peek r.endptr = ':' then
    parse_time_third (wrap_long (wrap_long (sum + r.value) * 60)) r.endptr
  else if peek r.endptr = ' ' ∨ peek r.endptr = '\t' then
    parse_result.fail cfg_error.whitespace
  else parse_result.fail cfg_error.trailing

/-- `parse_time_value(cfg, opt, value, result)`.  The warning printed for a
number without unit is not part of the result. -/
def parse_time_value (value : List Char) : parse_result :=
  let r := strtol value
  if r.converted = false then parse_result.fail cfg_error.not_a_number
  else if r.value = LONG_MAX then parse_result.fail cfg_error.too_large
  else if r.value < 0 then parse_result.fail cfg_error.negative
  else if peek r.endptr = Char.ofNat 0 ∨ peek r.endptr = 'm' ∨ peek r.endptr = ':' then
    parse_time_second (wrap_long (r.value * 60)) r.endptr
  else if peek r.endptr = 'h' then
    parse_time_second (wrap_long (r.value * 3600)) r.endptr
  else if peek r.endptr = 'd' then
    parse_time_second (wrap_long (r.value * (24 * 60 * 60))) r.endptr
  else if peek r.endptr = 's' then
    parse_time_second r.value r.endptr
  else if peek r.endptr = '\t' ∨ peek r.endptr = ' ' then
    parse_result.fail cfg_error.whitespace
  else parse_result.fail cfg_error.trailing

/-- The multiplier `parse_size_value` applies for the character after the
number, `none` for the `default` branch of its `switch`. -/
def size_unit (c : Char) : Option Int :=
  if c = Char.ofNat 0 ∨ c = 'b' ∨ c = 'B' then some 1
  else if c = 's' ∨ c = 'S' then some 512
  else if c = 'k' ∨ c = 'K' then some 1024
  else if c = 'm' ∨ c = 'M' then some (1024 * 1024)
  else if c = 'g' ∨ c = 'G' then some (1024 * 1024 * 1024)
  else if c = 't' ∨ c = 'T' then some (1024 * 1024 * 1024 * 1024)
  else none

/-- `parse_size_value(cfg, opt, value, result)`. -/
def parse_size_value (value : List Char) : parse_result :=
  let r := strtol value
  if r.converted = false then parse_result.fail cfg_error.not_a_number
  else if r.value = LONG_MAX then parse_result.fail cfg_error.too_large
  else if r.value < 0 then parse_result.fail cfg_error.negative
  else if r.value = 0 then parse_result.fail cfg_error.zero
  else
    match size_unit (peek r.endptr) with
    | none => parse_result.fail cfg_error.trailing
    | some mult =>
      if peek r.endptr ≠ Char.ofNat 0 ∧ peek r.endptr.tail ≠ Char.ofNat 0 then
        parse_result.fail cfg_error.trailing
      else parse_result.store (wrap_long (r.value * mult))

/-- The digits `ds` are a decimal writing of `n`: at least one digit, digits
only, denoting `n` (leading zeros allowed). -/
def is_decimal (ds : List Char) (n : Nat) : Prop :=
  ds ≠ [] ∧ (∀ c ∈ ds, isdigit c = true) ∧ decimal_value ds = n

/-- The first number `parse_time_value` reads: its first `strtol`. -/
def time_component1 (value : List Char) : strtol_result :=
  strtol value

/-- The second number `parse_time_value` reads: its second `strtol`, started
behind the character that follows the first number. -/
def time_component2 (value : List Char) : strtol_result :=
  strtol (advance (time_component1 value).endptr)

/-- The third number `parse_time_value` reads: its third `strtol`, started
behind the character that follows the second number. -/
def time_component3 (value : List Char) : strtol_result :=
  strtol (advance (time_component2 value).endptr)

/-- The parser returned -1 and stored nothing. -/
def parse_result.failed : parse_result → Bool
  | parse_result.fail _ => true
  | parse_result.store _ => false

/-! ## Positions read by `compare_extents` -/

section reads

variable {α : Type} [LinearOrder α]

/-- The positions `i` at which the loop of `compare_extents`, run from index
`i` on, evaluates `e1->extents[i].score` and `e2->extents[i].score`, in the
order of the reads; the loop is that of `compare_loop`. -/
def compare_reads (e1 e2 : extents α) : Nat → Nat → List Nat
  | 0, _ => []
  | fuel + 1, i =>
    if i < e1.length ∧ e2.length ≠ 0 ∧ i < SIZE_MAX then
      match read_extent e1 i, read_extent e2 i with
      | some a, some b =>
        if cfloat.eq a.score b.score then i :: compare_reads e1 e2 fuel (i + 1)
        else [i]
      | _, _ => [i]
    else []

/-- The positions read by `compare_extents(e1, e2)`. -/
def compare_extents_reads (e1 e2 : extents α) : List Nat :=
  compare_reads e1 e2 (e1.length + 1) 0

end reads

/-- A store whose block holds exactly the given scores. -/
def tight (l : List Int) : extents Int :=
  { extents := some (l.map fun v => { score := cfloat.num v }), length := l.length }

/-- A store of `n` extents inside a block that holds the given scores: the
block may have room for more extents than `length` counts (the data model only
asks for `length ≤ capacity`; `truncate_extents` exists to trim such a block). -/
def slack (l : List Int) (n : Nat) : extents Int :=
  { extents := some (l.map fun v => { score := cfloat.num v }), length := n }

/-- A configuration with one volume `lv` whose `pv` sections have the given
tiers and paths. -/
def one_volume (l : List (Int × String)) : program_params Int :=
  { cfg := [{ title := "lv",
              pv := l.map fun b =>
                { tier := b.1, pinningScore := cfloat.num 0, path := b.2,
                  maxUsedSpace := -1 } }] }

/-- A store holding one extent whose score is NaN. -/
def nan_store : extents Int :=
  { extents := some [{ score := cfloat.nan }], length := 1 }

/-- The store left behind by a failed reallocation: no block, length 0. -/
def empty_store : extents Int :=
  { extents := none, length := 0 }

/-- A configuration with one volume `lv` and two `pv` sections of tier 1, the
second written without `maxUsedSpace`. -/
def two_pv_volume : program_params Int :=
  { cfg := [{ title := "lv",
              pv := [cfg_pv (some 1) (some (cfloat.num 7)) "/dev/a" (some 4096),
                     cfg_pv (some 1) (some (cfloat.num 9)) "/dev/b" none] }] }

/-! Properties -/

/-! ## `compare_extents` -/

/-- C1 (defect in the code): on the store `[1, 2]` against the shorter store
`[1]` the lexicographic comparison of the claim is `1`, but the loop of
`compare_extents`, whose condition tests `e2->length` instead of
`i < e2->length`, goes on to index 1 of the second store: outside its block
when the block holds one extent (undefined behaviour), and on the unused slot
when the block has room for more (here it holds 5, and the call returns -1). -/
theorem compare_extents_not_lexicographic :
    lex_compare (extents_scores (tight [1, 2])) (extents_scores (tight [1])) = 1 ∧
    compare_extents (tight [1, 2]) (tight [1]) = Outcome.undefined ∧
    lex_compare (extents_scores (tight [1, 2])) (extents_scores (slack [1, 5] 1)) = 1 ∧
    compare_extents (tight [1, 2]) (slack [1, 5] 1) = Outcome.ret (-1) := by
  decide

/-- C2 (defect in the code): antisymmetry fails between `[1, 2]` and a store of
length 1 holding `[1]`.  Shorter against longer returns -1 as it should; longer
against shorter does not return 1: it is undefined when the shorter block holds
just one extent and returns -1 again when the slot behind it holds 5. -/
theorem compare_extents_not_antisymmetric :
    compare_extents (tight [1]) (tight [1, 2]) = Outcome.ret (-1) ∧
    compare_extents (tight [1, 2]) (tight [1]) = Outcome.undefined ∧
    compare_extents (slack [1, 5] 1) (tight [1, 2]) = Outcome.ret (-1) ∧
    compare_extents (tight [1, 2]) (slack [1, 5] 1) = Outcome.ret (-1) := by
  decide

/-- C3 (defect in the code): transitivity fails.  With `A = [1, 2]`, `B` of
length 1 holding `[1]` in a block whose second slot holds 5, and `C` of length 1
holding `[1]` in a block whose second slot holds 0, the code answers
`A ≤ B` (-1) and `B ≤ C` (0) but `A > C` (1). -/
theorem compare_extents_not_transitive :
    compare_extents (tight [1, 2]) (slack [1, 5] 1) = Outcome.ret (-1) ∧
    compare_extents (slack [1, 5] 1) (slack [1, 0] 1) = Outcome.ret 0 ∧
    compare_extents (tight [1, 2]) (slack [1, 0] 1) = Outcome.ret 1 := by
  decide

/-! ## `get_extent` -/

/-- C4 (defect in the code): for every index inside the store, `n < length`,
the assertion `assert(e->length < nmemb)` of `get_extent` fails, so the call
aborts instead of returning the extent at position `n`. -/
theorem get_extent_aborts_in_bounds {α : Type} (e : extents α) (n : Nat)
    (h : n < e.length) : get_extent e n = Outcome.abort := by
  unfold get_extent
  rw [if_neg (by omega)]

/-- C4 at the store `[7]` and index 0. -/
theorem get_extent_aborts_in_bounds_witness :
    0 < (tight [7]).length ∧ get_extent (tight [7]) 0 = Outcome.abort :=
  ⟨by decide, get_extent_aborts_in_bounds (tight [7]) 0 (by decide)⟩

/-! ## `truncate_extents` -/

/-- C5: for a store with a block and `len < length`, a call whose reallocation
succeeds returns the store made of the first `len` extents of the block with
length `len`; every position below `len` reads as before, the scores are the
first `len` of the old scores, and a well-formed store stays well-formed with
exactly `len` scores. -/
theorem truncate_extents_shrinks {α : Type} (e : extents α)
    (block : List (extent α)) (len : Nat)
    (hblock : e.extents = some block) (hlen : len < e.length) :
    truncate_extents true e len
        = Outcome.ret { extents := some (block.take len), length := len } ∧
      (∀ i, i < len →
        read_extent { extents := some (block.take len), length := len } i
          = read_extent e i) ∧
      extents_scores ({ extents := some (block.take len), length := len } : extents α)
        = (extents_scores e).take len ∧
      (extents_wf e →
        extents_wf ({ extents := some (block.take len), length := len } : extents α) ∧
        (extents_scores
          ({ extents := some (block.take len), length := len } : extents α)).length
          = len) := by
  refine ⟨?_, ?_, ?_, ?_⟩
  · simp [truncate_extents, hblock, realloc, Nat.not_lt.mpr (Nat.le_of_lt hlen)]
  · intro i hi
    simp [read_extent, hblock, List.getElem?_take, hi]
  · simp [extents_scores, hblock, List.take_take, Nat.min_eq_left (Nat.le_of_lt hlen),
      ← List.map_take]
  · intro hwf
    obtain ⟨h1, h2⟩ := hwf
    simp only [capacity, hblock] at h2
    refine ⟨⟨?_, ?_⟩, ?_⟩
    · show len ≤ SIZE_MAX
      omega
    · show len ≤ (block.take len).length
      simp
      omega
    · simp [extents_scores]
      omega

/-- C5 at the store `[1, 2, 3]` cut to 2. -/
theorem truncate_extents_shrinks_witness :
    truncate_extents true (tight [1, 2, 3]) 2 = Outcome.ret (tight [1, 2]) :=
  (truncate_extents_shrinks (tight [1, 2, 3])
    [{ score := cfloat.num 1 }, { score := cfloat.num 2 }, { score := cfloat.num 3 }]
    2 rfl (by decide)).1

/-- C6 (as stated, refuted): with `len` equal to the length the call still
reallocates, and when that fails the store `[7]` of length 1 is emptied; and a
store without a block stops in `assert(e->extents)` whatever `len` is. -/
theorem truncate_extents_same_length_not_noop :
    (tight [7]).length ≤ 1 ∧
    truncate_extents false (tight [7]) 1
      = Outcome.ret { extents := none, length := 0 } ∧
    empty_store.length ≤ 0 ∧
    truncate_extents true empty_store 0 = Outcome.abort := by
  decide

/-- C6 (amended): for a store with a block and `len ≥ length`, when
`len > length` or the reallocation succeeds, the call returns a store of the
same length in which every position below the length reads as before and the
scores are the same; when `len > length` the store is returned untouched. -/
theorem truncate_extents_noop {α : Type} (ok : Bool) (e : extents α)
    (block : List (extent α)) (len : Nat)
    (hblock : e.extents = some block) (hlen : e.length ≤ len)
    (hcase : e.length < len ∨ ok = true) :
    ∃ e1 : extents α, truncate_extents ok e len = Outcome.ret e1 ∧
      e1.length = e.length ∧
      (∀ i, i < e.length → read_extent e1 i = read_extent e i) ∧
      extents_scores e1 = extents_scores e ∧
      (e.length < len → e1 = e) := by
  by_cases hlt : e.length < len
  · refine ⟨e, ?_, rfl, fun _ _ => rfl, rfl, fun _ => rfl⟩
    simp [truncate_extents, hblock, hlt]
  · have heq : len = e.length := by omega
    have hok : ok = true := by
      rcases hcase with h | h
      · exact absurd h hlt
      · exact h
    subst hok
    refine ⟨{ extents := some (block.take len), length := len }, ?_, heq, ?_, ?_, ?_⟩
    · simp [truncate_extents, hblock, hlt, realloc]
    · intro i hi
      simp [read_extent, hblock, List.getElem?_take, heq, hi]
    · simp [extents_scores, hblock, heq]
    · intro h
      exact absurd h hlt

/-- C6 (amended) at the store `[1, 2]`: `len = 5` with a failing allocator and
`len = 2` with a working one both leave length 2. -/
theorem truncate_extents_noop_witness :
    (∃ e1 : extents Int, truncate_extents false (tight [1, 2]) 5 = Outcome.ret e1 ∧
      e1.length = 2) ∧
    (∃ e1 : extents Int, truncate_extents true (tight [1, 2]) 2 = Outcome.ret e1 ∧
      e1.length = 2) := by
  constructor
  · obtain ⟨e1, h1, h2, _⟩ := truncate_extents_noop false (tight [1, 2])
      [{ score := cfloat.num 1 }, { score := cfloat.num 2 }] 5 rfl (by decide)
      (Or.inl (by decide))
    exact ⟨e1, h1, h2⟩
  · obtain ⟨e1, h1, h2, _⟩ := truncate_extents_noop true (tight [1, 2])
      [{ score := cfloat.num 1 }, { score := cfloat.num 2 }] 2 rfl (by decide)
      (Or.inr rfl)
    exact ⟨e1, h1, h2⟩

/-- C7 (defect in the code): cutting the store `[7]` to length 0 when
`realloc(p, 0)` returns `NULL`.  The block has then been released by
`realloc`, and the `free(e->extents)` of the failure branch releases it a
second time: the call is undefined instead of returning the empty store.
With a length above 0 the same branch does return the empty store. -/
theorem truncate_extents_zero_double_free :
    (tight [7]).extents ≠ none ∧
    ¬ (tight [7]).length < 0 ∧
    truncate_extents false (tight [7]) 0 = Outcome.undefined ∧
    truncate_extents false (tight [7, 8]) 1
      = Outcome.ret { extents := none, length := 0 } := by
  decide

/-- Away from length 0: when `truncate_extents` reaches its `realloc` (the
store has a block and `length < len` does not hold) with `len` above 0 and the
reallocation fails, the store returned is the empty one, no block and length
0; and whatever the allocator does the call returns either the first `len`
extents of the block with length `len`, or that empty store. -/
theorem truncate_extents_realloc_failure {α : Type} (e : extents α)
    (block : List (extent α)) (len : Nat)
    (hblock : e.extents = some block) (hlen : ¬ e.length < len) (hpos : len ≠ 0) :
    truncate_extents false e len = Outcome.ret { extents := none, length := 0 } ∧
    ∀ ok : Bool, ∃ e1 : extents α, truncate_extents ok e len = Outcome.ret e1 ∧
      ((e1.extents = some (block.take len) ∧ e1.length = len) ∨
        (e1.extents = none ∧ e1.length = 0)) ∧
      (e1.length = len ∨ e1.length = 0) := by
  constructor
  · simp [truncate_extents, hblock, hlen, realloc, hpos]
  · intro ok
    cases ok
    · exact ⟨{ extents := none, length := 0 },
        by simp [truncate_extents, hblock, hlen, realloc, hpos],
        Or.inr ⟨rfl, rfl⟩, Or.inr rfl⟩
    · exact ⟨{ extents := some (block.take len), length := len },
        by simp [truncate_extents, hblock, hlen, realloc],
        Or.inl ⟨rfl, rfl⟩, Or.inl rfl⟩

/-- When `realloc` returns `NULL` for length 0 the call is undefined, whatever
the store with a block is. -/
theorem truncate_extents_zero_undefined {α : Type} (e : extents α)
    (block : List (extent α)) (hblock : e.extents = some block) :
    truncate_extents false e 0 = Outcome.undefined := by
  simp [truncate_extents, hblock, realloc]

/-! ## `count_extents` -/

section count_proofs

variable {α : Type} [LinearOrder α]

/-- The loop of `count_extents` on a well-formed store: started at index `i`
with `count ≤ i`, it returns `count` plus the number of the remaining extents
that the direction `hot_cold` selects. -/
theorem count_loop_eq (ES_COLD ES_HOT : Int) (hdir : ES_COLD ≠ ES_HOT)
    (e : extents α) (block : List (extent α)) (t : cfloat α) (hot_cold : Int)
    (hblock : e.extents = some block) (hcap : e.length ≤ block.length)
    (hsz : e.length < 2 ^ 64) :
    ∀ (fuel i count : Nat), e.length - i < fuel → i ≤ e.length → count ≤ i →
      count_loop ES_COLD ES_HOT e t hot_cold fuel i count
        = Outcome.ret (count + ((block.take e.length).drop i).countP fun x =>
            (decide (hot_cold = ES_COLD) && cfloat.gt x.score t) ||
            (decide (hot_cold = ES_HOT) && cfloat.lt x.score t)) := by
  intro fuel
  induction fuel with
  | zero => intro i count h; omega
  | succ fuel ih =>
    intro i count hfuel hi hcount
    unfold count_loop
    by_cases hlt : i < e.length
    · have hib : i < block.length := by omega
      have hit : i < (block.take e.length).length := by
        simp [List.length_take]; omega
      have hread : read_extent e i = some block[i] := by
        simp [read_extent, hblock, List.getElem?_eq_getElem hib]
      have hdrop : (block.take e.length).drop i
          = block[i] :: (block.take e.length).drop (i + 1) := by
        rw [List.drop_eq_getElem_cons hit]
        simp [List.getElem_take]
      have hmod1 : (count + 1) % 2 ^ 64 = count + 1 := Nat.mod_eq_of_lt (by omega)
      have hexcl : ¬ ((hot_cold = ES_COLD ∧ cfloat.gt block[i].score t = true) ∧
          (hot_cold = ES_HOT ∧ cfloat.lt block[i].score t = true)) := by
        rintro ⟨⟨h1, _⟩, ⟨h2, _⟩⟩
        exact hdir (h1.symm.trans h2)
      have hpred : ((decide (hot_cold = ES_COLD) && cfloat.gt block[i].score t ||
            decide (hot_cold = ES_HOT) && cfloat.lt block[i].score t) = true) ↔
          ((hot_cold = ES_COLD ∧ cfloat.gt block[i].score t = true) ∨
            (hot_cold = ES_HOT ∧ cfloat.lt block[i].score t = true)) := by
        simp
      rw [if_pos hlt, hread, hdrop, List.countP_cons]
      simp only [hpred]
      by_cases h1 : hot_cold = ES_COLD ∧ cfloat.gt block[i].score t = true
      · have h2 : ¬ (hot_cold = ES_HOT ∧ cfloat.lt block[i].score t = true) :=
          fun h2 => hexcl ⟨h1, h2⟩
        rw [if_pos h1, if_neg h2, hmod1, if_pos (Or.inl h1),
          ih (i + 1) (count + 1) (by omega) (by omega) (by omega)]
        congr 1
        omega
      · by_cases h2 : hot_cold = ES_HOT ∧ cfloat.lt block[i].score t = true
        · rw [if_neg h1, if_pos h2, hmod1, if_pos (Or.inr h2),
            ih (i + 1) (count + 1) (by omega) (by omega) (by omega)]
          congr 1
          omega
        · rw [if_neg h1, if_neg h2, if_neg (by tauto),
            ih (i + 1) count (by omega) (by omega) (by omega)]
          rfl
    · have hie : i = e.length := by omega
      rw [if_neg hlt]
      have : (block.take e.length).drop i = [] := by
        apply List.drop_eq_nil_of_le
        simp [List.length_take]; omega
      simp [this]

/-- A count that fits in `int` is returned unchanged. -/
theorem size_t_to_int_of_le (n : Nat) (h : n ≤ INT_MAX) : size_t_to_int n = (n : Int) := by
  have h1 : n < 2 ^ 31 := by
    have : INT_MAX = 2 ^ 31 - 1 := rfl
    omega
  have h2 : n % 2 ^ 32 = n := Nat.mod_eq_of_lt (by omega)
  unfold size_t_to_int
  rw [h2, if_pos h1]

/-- A well-formed store has as many scores as its length says. -/
theorem extents_scores_length {α : Type} (e : extents α) (hwf : extents_wf e) :
    (extents_scores e).length = e.length := by
  obtain ⟨_, h2⟩ := hwf
  unfold extents_scores
  cases hb : e.extents with
  | none =>
    simp only [capacity, hb] at h2
    simp
    omega
  | some block =>
    simp only [capacity, hb] at h2
    simp [List.length_take]
    omega

/-- `count_extents` on a well-formed store whose length fits in `int`: the
number of scores selected by the direction. -/
theorem count_extents_eq (ES_COLD ES_HOT : Int) (hdir : ES_COLD ≠ ES_HOT)
    (e : extents α) (t : cfloat α) (hot_cold : Int)
    (hwf : extents_wf e) (hint : e.length ≤ INT_MAX) :
    count_extents ES_COLD ES_HOT e t hot_cold
      = Outcome.ret (((extents_scores e).countP fun s =>
          (decide (hot_cold = ES_COLD) && cfloat.gt s t) ||
          (decide (hot_cold = ES_HOT) && cfloat.lt s t) : Nat) : Int) := by
  have hlen := extents_scores_length e hwf
  have hI : INT_MAX = 2 ^ 31 - 1 := rfl
  obtain ⟨_, h2⟩ := hwf
  cases hb : e.extents with
  | none =>
    simp only [capacity, hb] at h2
    have h2 : e.length = 0 := by omega
    have hs : extents_scores e = [] := by simp [extents_scores, hb]
    unfold count_extents
    rw [h2]
    unfold count_loop
    simp [h2, hs, size_t_to_int]
  | some block =>
    simp only [capacity, hb] at h2
    have hloop := count_loop_eq ES_COLD ES_HOT hdir e block t hot_cold hb h2 (by omega)
      (e.length + 1) 0 0 (by omega) (by omega) (by omega)
    have hs : extents_scores e = (block.take e.length).map extent.score := by
      simp [extents_scores, hb]
    unfold count_extents
    rw [hloop]
    simp only [Nat.zero_add, List.drop_zero]
    rw [hs, List.countP_map]
    have hle : (List.countP ((fun s => (decide (hot_cold = ES_COLD) && cfloat.gt s t) ||
        (decide (hot_cold = ES_HOT) && cfloat.lt s t)) ∘ extent.score)
        (block.take e.length)) ≤ INT_MAX := by
      refine le_trans (List.countP_le_length _) ?_
      simp [List.length_take]
      omega
    have := size_t_to_int_of_le _ hle
    simp only [Function.comp_def] at this ⊢
    rw [this]

/-- Scores above and below a threshold are disjoint, so together they are at
most all scores; without NaN every score is above, below or equal. -/
theorem countP_gt_lt_eq (t : cfloat α) (l : List (cfloat α)) :
    (l.countP fun s => cfloat.gt s t) + (l.countP fun s => cfloat.lt s t) ≤ l.length ∧
    (t.isNum = true → (∀ s ∈ l, s.isNum = true) →
      (l.countP fun s => cfloat.gt s t) + (l.countP fun s => cfloat.lt s t)
        + (l.countP fun s => cfloat.eq s t) = l.length) := by
  induction l with
  | nil => simp
  | cons a l ih =>
    obtain ⟨ih1, ih2⟩ := ih
    have hexcl : ¬ (cfloat.gt a t = true ∧ cfloat.lt a t = true) := by
      cases a <;> cases t <;> simp [cfloat.gt, cfloat.lt]
      intro h
      exact le_of_lt h
    constructor
    · simp only [List.countP_cons, List.length_cons]
      cases hg : cfloat.gt a t <;> cases hl : cfloat.lt a t <;>
        simp [hg, hl] at hexcl ⊢ <;> omega
    · intro ht hall
      have hall1 : ∀ s ∈ l, s.isNum = true := fun s hs => hall s (List.mem_cons_of_mem _ hs)
      have ha : a.isNum = true := hall a (List.mem_cons_self _ _)
      have ih3 := ih2 ht hall1
      have htri : (cfloat.gt a t = true ∧ cfloat.lt a t = false ∧ cfloat.eq a t = false) ∨
          (cfloat.gt a t = false ∧ cfloat.lt a t = true ∧ cfloat.eq a t = false) ∨
          (cfloat.gt a t = false ∧ cfloat.lt a t = false ∧ cfloat.eq a t = true) := by
        cases a with
        | nan => simp [cfloat.isNum] at ha
        | num x =>
          cases t with
          | nan => simp [cfloat.isNum] at ht
          | num y =>
            simp only [cfloat.gt, cfloat.lt, cfloat.eq, decide_eq_true_eq, decide_eq_false_iff_not]
            rcases lt_trichotomy x y with h | h | h
            · right; left
              exact ⟨not_lt.mpr (le_of_lt h), h, ne_of_lt h⟩
            · right; right
              subst h
              exact ⟨lt_irrefl _, lt_irrefl _, rfl⟩
            · left
              exact ⟨h, not_lt.mpr (le_of_lt h), ne_of_gt h⟩
      simp only [List.countP_cons, List.length_cons]
      rcases htri with ⟨h1, h2, h3⟩ | ⟨h1, h2, h3⟩ | ⟨h1, h2, h3⟩ <;>
        simp [h1, h2, h3] <;> omega

/-- C8 (amended): on a well-formed store whose length fits in `int`, with the
two direction constants distinct, `count_extents` returns for `ES_COLD` the
number of scores strictly above the threshold and for `ES_HOT` the number
strictly below it; the two counts add up to at most the length; and when
neither the threshold nor any score is NaN they add up to the length minus the
number of scores equal to the threshold, reaching the length exactly when no
score equals it. -/
theorem count_extents_counts (ES_COLD ES_HOT : Int) (hdir : ES_COLD ≠ ES_HOT)
    (e : extents α) (t : cfloat α)
    (hwf : extents_wf e) (hint : e.length ≤ INT_MAX) :
    count_extents ES_COLD ES_HOT e t ES_COLD
      = Outcome.ret (((extents_scores e).countP fun s => cfloat.gt s t : Nat) : Int) ∧
    count_extents ES_COLD ES_HOT e t ES_HOT
      = Outcome.ret (((extents_scores e).countP fun s => cfloat.lt s t : Nat) : Int) ∧
    ((extents_scores e).countP fun s => cfloat.gt s t)
      + ((extents_scores e).countP fun s => cfloat.lt s t) ≤ e.length ∧
    (t.isNum = true → (∀ s ∈ extents_scores e, s.isNum = true) →
      ((extents_scores e).countP fun s => cfloat.gt s t)
        + ((extents_scores e).countP fun s => cfloat.lt s t)
        = e.length - ((extents_scores e).countP fun s => cfloat.eq s t) ∧
      (((extents_scores e).countP fun s => cfloat.gt s t)
        + ((extents_scores e).countP fun s => cfloat.lt s t) = e.length ↔
        ((extents_scores e).countP fun s => cfloat.eq s t) = 0)) := by
  have hlen := extents_scores_length e hwf
  obtain ⟨hle, hsum⟩ := countP_gt_lt_eq t (extents_scores e)
  refine ⟨?_, ?_, ?_, ?_⟩
  · rw [count_extents_eq ES_COLD ES_HOT hdir e t ES_COLD hwf hint]
    simp [hdir]
  · rw [count_extents_eq ES_COLD ES_HOT hdir e t ES_HOT hwf hint]
    simp [Ne.symm hdir]
  · omega
  · intro ht hall
    have := hsum ht hall
    constructor
    · omega
    · omega

end count_proofs

/-- C8 (as stated, refuted): a store holding one NaN score, threshold 0.  No
score equals the threshold, yet the cold and the hot count are both 0 and do
not add up to the length 1. -/
theorem count_extents_nan_in_neither_count :
    count_extents 0 1 nan_store (cfloat.num 0) 0 = Outcome.ret 0 ∧
    count_extents 0 1 nan_store (cfloat.num 0) 1 = Outcome.ret 0 ∧
    ((extents_scores nan_store).countP fun s => cfloat.eq s (cfloat.num 0)) = 0 ∧
    nan_store.length = 1 := by
  decide

/-- C8 (amended) at the store `[1, 2, 3]` with threshold 2: one extent is
cold, one is hot. -/
theorem count_extents_counts_witness :
    count_extents 0 1 (tight [1, 2, 3]) (cfloat.num 2) 0 = Outcome.ret 1 ∧
    count_extents 0 1 (tight [1, 2, 3]) (cfloat.num 2) 1 = Outcome.ret 1 :=
  have h := count_extents_counts 0 1 (by decide) (tight [1, 2, 3]) (cfloat.num 2)
    (by decide) (by decide)
  ⟨h.1, h.2.1⟩

/-! ## `compare_extents` where it is right -/

section compare_proofs

variable {α : Type} [LinearOrder α]

/-- Inside a well-formed store every position below the length can be read, and
the score read is the one listed at that position. -/
theorem read_extent_of_wf (e : extents α) (hwf : extents_wf e) (i : Nat)
    (hi : i < e.length) :
    ∃ x, read_extent e i = some x ∧
      (extents_scores e).drop i = x.score :: (extents_scores e).drop (i + 1) := by
  have hlen := extents_scores_length e hwf
  obtain ⟨_, h2⟩ := hwf
  cases hb : e.extents with
  | none =>
    simp only [capacity, hb] at h2
    omega
  | some block =>
    simp only [capacity, hb] at h2
    have hib : i < block.length := by omega
    refine ⟨block[i], ?_, ?_⟩
    · simp [read_extent, hb, List.getElem?_eq_getElem hib]
    · have his : i < (extents_scores e).length := by omega
      rw [List.drop_eq_getElem_cons his]
      congr 1
      simp [extents_scores, hb, List.getElem_take]

/-- Where the first store is not the longer one, the loop of `compare_extents`
started at index `i` returns the lexicographic comparison of the scores from
position `i` on. -/
theorem compare_loop_eq_lex (e1 e2 : extents α) (hwf1 : extents_wf e1)
    (hwf2 : extents_wf e2) (hle : e1.length ≤ e2.length) :
    ∀ (fuel i : Nat), e1.length - i < fuel → i ≤ e1.length →
      compare_loop e1 e2 fuel i
        = Outcome.ret (lex_compare ((extents_scores e1).drop i)
            ((extents_scores e2).drop i)) := by
  have hlen1 := extents_scores_length e1 hwf1
  have hlen2 := extents_scores_length e2 hwf2
  have hsz : e1.length ≤ SIZE_MAX := hwf1.1
  intro fuel
  induction fuel with
  | zero => intro i h; omega
  | succ fuel ih =>
    intro i hfuel hi
    unfold compare_loop
    by_cases hlt : i < e1.length
    · obtain ⟨a, ha, hda⟩ := read_extent_of_wf e1 hwf1 i hlt
      obtain ⟨b, hb, hdb⟩ := read_extent_of_wf e2 hwf2 i (by omega)
      have hcond : i < e1.length ∧ e2.length ≠ 0 ∧ i < SIZE_MAX :=
        ⟨hlt, by omega, by omega⟩
      rw [if_pos hcond, ha, hb, hda, hdb]
      simp only [lex_compare]
      by_cases heq : cfloat.eq a.score b.score = true
      · rw [if_pos heq, if_pos heq]
        exact ih (i + 1) (by omega) (by omega)
      · rw [if_neg heq, if_neg heq]
        by_cases hgt : cfloat.gt a.score b.score = true
        · rw [if_pos hgt, if_pos hgt]
        · rw [if_neg hgt, if_neg hgt]
    · have hie : i = e1.length := by omega
      have hcond : ¬ (i < e1.length ∧ e2.length ≠ 0 ∧ i < SIZE_MAX) := fun h => hlt h.1
      have hd1 : (extents_scores e1).drop i = [] :=
        List.drop_eq_nil_of_le (by omega)
      rw [if_neg hcond, hd1]
      by_cases hl : e1.length < e2.length
      · rw [if_pos hl]
        obtain ⟨b, _, hdb⟩ := read_extent_of_wf e2 hwf2 i (by omega)
        rw [hdb]
        rfl
      · have hd2 : (extents_scores e2).drop i = [] :=
          List.drop_eq_nil_of_le (by omega)
        rw [if_neg hl, if_neg (by omega), hd2]
        rfl

/-- Where the first store is not the longer one, `compare_extents` returns the
lexicographic comparison of the two score sequences. -/
theorem compare_extents_eq_lex_of_le (e1 e2 : extents α) (hwf1 : extents_wf e1)
    (hwf2 : extents_wf e2) (hle : e1.length ≤ e2.length) :
    compare_extents e1 e2
      = Outcome.ret (lex_compare (extents_scores e1) (extents_scores e2)) := by
  have h := compare_loop_eq_lex e1 e2 hwf1 hwf2 hle (e1.length + 1) 0 (by omega) (by omega)
  simpa [compare_extents] using h

/-- Against an empty second store the loop of `compare_extents` does not run:
the result is 1 for a non-empty first store and 0 for an empty one. -/
theorem compare_extents_empty_right (e1 e2 : extents α) (h2 : e2.length = 0) :
    compare_extents e1 e2 = Outcome.ret (if 0 < e1.length then 1 else 0) := by
  unfold compare_extents compare_loop
  have hcond : ¬ (0 < e1.length ∧ e2.length ≠ 0 ∧ 0 < SIZE_MAX) := fun h => h.2.1 h2
  rw [if_neg hcond, h2, if_neg (Nat.not_lt_zero _)]
  by_cases h : 0 < e1.length
  · rw [if_pos h, if_pos h]
  · rw [if_neg h, if_neg h]

/-- The lexicographic comparison of a NaN-free score sequence with itself
is 0. -/
theorem lex_compare_self (l : List (cfloat α)) (hnum : ∀ s ∈ l, s.isNum = true) :
    lex_compare l l = 0 := by
  induction l with
  | nil => rfl
  | cons a l ih =>
    have ha : cfloat.eq a a = true := by
      have := hnum a (List.mem_cons_self _ _)
      cases a with
      | nan => simp [cfloat.isNum] at this
      | num v => simp [cfloat.eq]
    simp only [lex_compare, ha, if_true]
    exact ih fun s hs => hnum s (List.mem_cons_of_mem _ hs)

/-- A well-formed store without NaN scores compares equal to itself. -/
theorem compare_extents_self (e : extents α) (hwf : extents_wf e)
    (hnum : ∀ s ∈ extents_scores e, s.isNum = true) :
    compare_extents e e = Outcome.ret 0 := by
  rw [compare_extents_eq_lex_of_le e e hwf hwf (Nat.le_refl _),
    lex_compare_self _ hnum]

end compare_proofs

/-! ## Tier lookups -/

section tier_proofs

variable {α : Type}

/-- A value inside the range of `int` is not changed by the conversion. -/
theorem long_to_int_of_range (x : Int) (h1 : INT_MIN ≤ x) (h2 : x ≤ (INT_MAX : Int)) :
    long_to_int x = x := by
  unfold long_to_int
  have hmin : INT_MIN = -(2 ^ 31) := rfl
  have hmax : (INT_MAX : Int) = 2 ^ 31 - 1 := by decide
  have h : (x + 2 ^ 31) % 2 ^ 32 = x + 2 ^ 31 :=
    Int.emod_eq_of_lt (by omega) (by omega)
  omega

/-- With tiers inside the range of `int`, the running minimum of
`higher_tiers_exist` is below `t` exactly when the starting value or some later
section is. -/
theorem lowest_tier_loop_lt (t : Int) (l : List (pv_cfg α))
    (hfit : ∀ b ∈ l, INT_MIN ≤ b.tier ∧ b.tier ≤ (INT_MAX : Int)) :
    ∀ lo : Int, lowest_tier_loop lo l < t ↔ lo < t ∨ ∃ b ∈ l, b.tier < t := by
  induction l with
  | nil => intro lo; simp [lowest_tier_loop]
  | cons pv rest ih =>
    intro lo
    have hpv := hfit pv (List.mem_cons_self _ _)
    have ih := ih fun b hb => hfit b (List.mem_cons_of_mem _ hb)
    unfold lowest_tier_loop
    rw [long_to_int_of_range pv.tier hpv.1 hpv.2]
    by_cases h : pv.tier < lo
    · rw [if_pos h, ih pv.tier]
      constructor
      · rintro (h1 | ⟨b, hb, hbt⟩)
        · exact Or.inr ⟨pv, List.mem_cons_self _ _, h1⟩
        · exact Or.inr ⟨b, List.mem_cons_of_mem _ hb, hbt⟩
      · rintro (h1 | ⟨b, hb, hbt⟩)
        · exact Or.inl (lt_trans h h1)
        · rcases List.mem_cons.mp hb with rfl | hb
          · exact Or.inl hbt
          · exact Or.inr ⟨b, hb, hbt⟩
    · rw [if_neg h, ih lo]
      constructor
      · rintro (h1 | ⟨b, hb, hbt⟩)
        · exact Or.inl h1
        · exact Or.inr ⟨b, List.mem_cons_of_mem _ hb, hbt⟩
      · rintro (h1 | ⟨b, hb, hbt⟩)
        · exact Or.inl h1
        · rcases List.mem_cons.mp hb with rfl | hb
          · exact Or.inl (lt_of_le_of_lt (not_lt.mp h) hbt)
          · exact Or.inr ⟨b, hb, hbt⟩

/-- With tiers inside the range of `int`, the running maximum of
`lower_tiers_exist` is above `t` exactly when the starting value or some later
section is. -/
theorem highest_tier_loop_gt (t : Int) (l : List (pv_cfg α))
    (hfit : ∀ b ∈ l, INT_MIN ≤ b.tier ∧ b.tier ≤ (INT_MAX : Int)) :
    ∀ hi : Int, highest_tier_loop hi l > t ↔ hi > t ∨ ∃ b ∈ l, b.tier > t := by
  induction l with
  | nil => intro hi; simp [highest_tier_loop]
  | cons pv rest ih =>
    intro hi
    have hpv := hfit pv (List.mem_cons_self _ _)
    have ih := ih fun b hb => hfit b (List.mem_cons_of_mem _ hb)
    unfold highest_tier_loop
    rw [long_to_int_of_range pv.tier hpv.1 hpv.2]
    by_cases h : pv.tier > hi
    · rw [if_pos h, ih pv.tier]
      constructor
      · rintro (h1 | ⟨b, hb, hbt⟩)
        · exact Or.inr ⟨pv, List.mem_cons_self _ _, h1⟩
        · exact Or.inr ⟨b, List.mem_cons_of_mem _ hb, hbt⟩
      · rintro (h1 | ⟨b, hb, hbt⟩)
        · exact Or.inl (lt_trans h1 h)
        · rcases List.mem_cons.mp hb with rfl | hb
          · exact Or.inl hbt
          · exact Or.inr ⟨b, hb, hbt⟩
    · rw [if_neg h, ih hi]
      constructor
      · rintro (h1 | ⟨b, hb, hbt⟩)
        · exact Or.inl h1
        · exact Or.inr ⟨b, List.mem_cons_of_mem _ hb, hbt⟩
      · rintro (h1 | ⟨b, hb, hbt⟩)
        · exact Or.inl h1
        · rcases List.mem_cons.mp hb with rfl | hb
          · exact Or.inl (lt_of_lt_of_le hbt (not_lt.mp h))
          · exact Or.inr ⟨b, hb, hbt⟩

/-- C9 (amended): for a volume with at least one `pv` section and all tiers
inside the range of `int`, `higher_tiers_exist` returns 1 when some section
has a tier strictly smaller than `tier` and 0 otherwise, and
`lower_tiers_exist` returns 1 when some section has a tier strictly larger than
`tier` and 0 otherwise. -/
theorem tiers_exist_iff (pp : program_params α) (lv_name : String)
    (vol : volume_cfg α) (tier : Int)
    (hvol : cfg_gettsec pp.cfg lv_name = some vol) (hne : vol.pv ≠ [])
    (hfit : ∀ b ∈ vol.pv, INT_MIN ≤ b.tier ∧ b.tier ≤ (INT_MAX : Int)) :
    ((∃ b ∈ vol.pv, b.tier < tier) →
      higher_tiers_exist pp lv_name tier = Outcome.ret 1) ∧
    ((¬ ∃ b ∈ vol.pv, b.tier < tier) →
      higher_tiers_exist pp lv_name tier = Outcome.ret 0) ∧
    ((∃ b ∈ vol.pv, b.tier > tier) →
      lower_tiers_exist pp lv_name tier = Outcome.ret 1) ∧
    ((¬ ∃ b ∈ vol.pv, b.tier > tier) →
      lower_tiers_exist pp lv_name tier = Outcome.ret 0) := by
  cases hpv : vol.pv with
  | nil => exact absurd hpv hne
  | cons pv0 rest =>
    rw [hpv] at hfit
    have hfit0 := hfit pv0 (List.mem_cons_self _ _)
    have hfitr : ∀ b ∈ rest, INT_MIN ≤ b.tier ∧ b.tier ≤ (INT_MAX : Int) :=
      fun b hb => hfit b (List.mem_cons_of_mem _ hb)
    have hconv := long_to_int_of_range pv0.tier hfit0.1 hfit0.2
    have hlow := lowest_tier_loop_lt tier rest hfitr pv0.tier
    have hhigh := highest_tier_loop_gt tier rest hfitr pv0.tier
    have hex_lt : (∃ b ∈ pv0 :: rest, b.tier < tier) ↔
        pv0.tier < tier ∨ ∃ b ∈ rest, b.tier < tier := by
      simp
    have hex_gt : (∃ b ∈ pv0 :: rest, b.tier > tier) ↔
        pv0.tier > tier ∨ ∃ b ∈ rest, b.tier > tier := by
      simp
    refine ⟨?_, ?_, ?_, ?_⟩
    · intro h
      have h1 := hlow.mpr (hex_lt.mp h)
      unfold higher_tiers_exist
      simp only [hvol, hpv, hconv]
      by_cases h0 : pv0.tier < tier
      · rw [if_pos h0]
      · rw [if_neg h0, if_pos h1]
    · intro h
      have h1 : ¬ lowest_tier_loop pv0.tier rest < tier :=
        fun h1 => h (hex_lt.mpr (hlow.mp h1))
      have h0 : ¬ pv0.tier < tier := fun h0 => h (hex_lt.mpr (Or.inl h0))
      unfold higher_tiers_exist
      simp only [hvol, hpv, hconv]
      rw [if_neg h0, if_neg h1]
    · intro h
      have h1 := hhigh.mpr (hex_gt.mp h)
      unfold lower_tiers_exist
      simp only [hvol, hpv, hconv]
      by_cases h0 : pv0.tier > tier
      · rw [if_pos h0]
      · rw [if_neg h0, if_pos h1]
    · intro h
      have h1 : ¬ highest_tier_loop pv0.tier rest > tier :=
        fun h1 => h (hex_gt.mpr (hhigh.mp h1))
      have h0 : ¬ pv0.tier > tier := fun h0 => h (hex_gt.mpr (Or.inl h0))
      unfold lower_tiers_exist
      simp only [hvol, hpv, hconv]
      rw [if_neg h0, if_neg h1]

end tier_proofs

/-- C9 (as stated, refuted): a tier outside the range of `int` is converted
before it is compared.  With the single binding of tier 4294967295, which
becomes -1, `higher_tiers_exist` returns 1 for tier 0 although no binding has
a tier below 0; with the single binding of tier 2147483648, which becomes
-2147483648, `lower_tiers_exist` returns 0 for tier 0 although that binding has
a tier above 0. -/
theorem tiers_exist_narrowed :
    higher_tiers_exist (one_volume [(4294967295, "/dev/a")]) "lv" 0 = Outcome.ret 1 ∧
    (¬ ∃ v ∈ (one_volume [(4294967295, "/dev/a")]).cfg, ∃ b ∈ v.pv, b.tier < 0) ∧
    lower_tiers_exist (one_volume [(2147483648, "/dev/a")]) "lv" 0 = Outcome.ret 0 ∧
    (∃ v ∈ (one_volume [(2147483648, "/dev/a")]).cfg, ∃ b ∈ v.pv, b.tier > 0) := by
  decide

/-- C9 (amended) at the bindings `{tier 0, tier 2}`: a higher and a lower tier
exist for tier 1, no higher tier exists for tier 0. -/
theorem tiers_exist_iff_witness :
    higher_tiers_exist (one_volume [(0, "/dev/a"), (2, "/dev/b")]) "lv" 1 = Outcome.ret 1 ∧
    lower_tiers_exist (one_volume [(0, "/dev/a"), (2, "/dev/b")]) "lv" 1 = Outcome.ret 1 ∧
    higher_tiers_exist (one_volume [(0, "/dev/a"), (2, "/dev/b")]) "lv" 0 = Outcome.ret 0 :=
  ⟨(tiers_exist_iff (one_volume [(0, "/dev/a"), (2, "/dev/b")]) "lv"
      { title := "lv",
        pv := [{ tier := 0, pinningScore := cfloat.num 0, path := "/dev/a", maxUsedSpace := -1 },
               { tier := 2, pinningScore := cfloat.num 0, path := "/dev/b", maxUsedSpace := -1 }] }
      1 (by decide) (by decide) (by decide)).1 (by decide),
   (tiers_exist_iff (one_volume [(0, "/dev/a"), (2, "/dev/b")]) "lv"
      { title := "lv",
        pv := [{ tier := 0, pinningScore := cfloat.num 0, path := "/dev/a", maxUsedSpace := -1 },
               { tier := 2, pinningScore := cfloat.num 0, path := "/dev/b", maxUsedSpace := -1 }] }
      1 (by decide) (by decide) (by decide)).2.2.1 (by decide),
   (tiers_exist_iff (one_volume [(0, "/dev/a"), (2, "/dev/b")]) "lv"
      { title := "lv",
        pv := [{ tier := 0, pinningScore := cfloat.num 0, path := "/dev/a", maxUsedSpace := -1 },
               { tier := 2, pinningScore := cfloat.num 0, path := "/dev/b", maxUsedSpace := -1 }] }
      0 (by decide) (by decide) (by decide)).2.1 (by decide)⟩

section device_proofs

variable {α : Type}

/-- The loop of `get_tier_device` finds nothing exactly when no section has the
tier, and what it finds is the path of the first section with the tier. -/
theorem get_tier_device_loop_spec (tier : Int) (l : List (pv_cfg α)) :
    (get_tier_device_loop tier l = none ↔ ∀ b ∈ l, b.tier ≠ tier) ∧
    (∀ p, get_tier_device_loop tier l = some p →
      ∃ pre b post, l = pre ++ b :: post ∧ (∀ x ∈ pre, x.tier ≠ tier) ∧
        b.tier = tier ∧ b.path = p) := by
  induction l with
  | nil =>
    constructor
    · simp [get_tier_device_loop]
    · intro p h
      simp [get_tier_device_loop] at h
  | cons pv rest ih =>
    obtain ⟨ih1, ih2⟩ := ih
    by_cases h : pv.tier = tier
    · constructor
      · constructor
        · intro hn
          simp [get_tier_device_loop, h] at hn
        · intro hall
          exact absurd h (hall pv (List.mem_cons_self _ _))
      · intro p hp
        simp only [get_tier_device_loop, if_pos h, Option.some.injEq] at hp
        exact ⟨[], pv, rest, rfl, by simp, h, hp⟩
    · constructor
      · simp only [get_tier_device_loop, if_neg h, ih1]
        constructor
        · intro hall b hb
          rcases List.mem_cons.mp hb with rfl | hb
          · exact h
          · exact hall b hb
        · intro hall b hb
          exact hall b (List.mem_cons_of_mem _ hb)
      · intro p hp
        simp only [get_tier_device_loop, if_neg h] at hp
        obtain ⟨pre, b, post, hl, hpre, hb, hpath⟩ := ih2 p hp
        refine ⟨pv :: pre, b, post, by simp [hl], ?_, hb, hpath⟩
        intro x hx
        rcases List.mem_cons.mp hx with rfl | hx
        · exact h
        · exact hpre x hx

/-- C10: for a configured volume, `get_tier_device` returns; the result is
`NULL` exactly when no `pv` section has tier `tier`; and a path it returns is
the path of a section with tier `tier` before which, in configuration order,
no section has that tier, so a later duplicate of the tier is never the one
returned. -/
theorem get_tier_device_first (pp : program_params α) (lv_name : String)
    (vol : volume_cfg α) (tier : Int)
    (hvol : cfg_gettsec pp.cfg lv_name = some vol) :
    ∃ r : Option String, get_tier_device pp lv_name tier = Outcome.ret r ∧
      (r = none ↔ ∀ b ∈ vol.pv, b.tier ≠ tier) ∧
      (∀ p, r = some p →
        ∃ pre b post, vol.pv = pre ++ b :: post ∧ (∀ x ∈ pre, x.tier ≠ tier) ∧
          b.tier = tier ∧ b.path = p) := by
  refine ⟨get_tier_device_loop tier vol.pv, ?_, ?_, ?_⟩
  · simp [get_tier_device, hvol]
  · exact (get_tier_device_loop_spec tier vol.pv).1
  · exact (get_tier_device_loop_spec tier vol.pv).2

end device_proofs

/-- C10 at the bindings `0 ↦ /dev/a`, `2 ↦ /dev/b`, `2 ↦ /dev/c`: tier 2 gives
`/dev/b`, the first of the two, and tier 1 gives `NULL`. -/
theorem get_tier_device_first_witness :
    (∃ r : Option String,
      get_tier_device (one_volume [(0, "/dev/a"), (2, "/dev/b"), (2, "/dev/c")]) "lv" 2
        = Outcome.ret r ∧ r = some "/dev/b") ∧
    (∃ r : Option String,
      get_tier_device (one_volume [(0, "/dev/a"), (2, "/dev/b"), (2, "/dev/c")]) "lv" 1
        = Outcome.ret r ∧ r = none) := by
  constructor
  · obtain ⟨r, h1, _, _⟩ := get_tier_device_first
      (one_volume [(0, "/dev/a"), (2, "/dev/b"), (2, "/dev/c")]) "lv"
      { title := "lv",
        pv := [{ tier := 0, pinningScore := cfloat.num 0, path := "/dev/a", maxUsedSpace := -1 },
               { tier := 2, pinningScore := cfloat.num 0, path := "/dev/b", maxUsedSpace := -1 },
               { tier := 2, pinningScore := cfloat.num 0, path := "/dev/c", maxUsedSpace := -1 }] }
      2 (by decide)
    refine ⟨r, h1, ?_⟩
    have h3 : get_tier_device (one_volume [(0, "/dev/a"), (2, "/dev/b"), (2, "/dev/c")]) "lv" 2
        = Outcome.ret (some "/dev/b") := by decide
    rw [h3] at h1
    exact (Outcome.ret.inj h1).symm
  · obtain ⟨r, h1, h2, _⟩ := get_tier_device_first
      (one_volume [(0, "/dev/a"), (2, "/dev/b"), (2, "/dev/c")]) "lv"
      { title := "lv",
        pv := [{ tier := 0, pinningScore := cfloat.num 0, path := "/dev/a", maxUsedSpace := -1 },
               { tier := 2, pinningScore := cfloat.num 0, path := "/dev/b", maxUsedSpace := -1 },
               { tier := 2, pinningScore := cfloat.num 0, path := "/dev/c", maxUsedSpace := -1 }] }
      1 (by decide)
    exact ⟨r, h1, h2.mpr (by decide)⟩


/-! ## More tier lookups -/

section more_tier_proofs

variable {α : Type}

/-- The loop of `get_device_tier` returns the tier, converted to `int`, of the
first section with the path, and -1 when no section has the path. -/
theorem get_device_tier_loop_spec (dev : String) (l : List (pv_cfg α)) :
    (∀ pre b post, l = pre ++ b :: post → (∀ x ∈ pre, x.path ≠ dev) → b.path = dev →
      get_device_tier_loop dev l = long_to_int b.tier) ∧
    ((∀ b ∈ l, b.path ≠ dev) → get_device_tier_loop dev l = -1) := by
  induction l with
  | nil =>
    constructor
    · intro pre b post h
      simp at h
    · intro _
      rfl
  | cons pv rest ih =>
    obtain ⟨ih1, ih2⟩ := ih
    constructor
    · intro pre b post hl hpre hb
      cases pre with
      | nil =>
        simp only [List.nil_append, List.cons.injEq] at hl
        obtain ⟨rfl, _⟩ := hl
        simp [get_device_tier_loop, hb]
      | cons p pre1 =>
        simp only [List.cons_append, List.cons.injEq] at hl
        obtain ⟨rfl, hrest⟩ := hl
        have hp : pv.path ≠ dev := hpre pv (List.mem_cons_self _ _)
        simp only [get_device_tier_loop, if_neg hp]
        exact ih1 pre1 b post hrest (fun x hx => hpre x (List.mem_cons_of_mem _ hx)) hb
    · intro hall
      have hp : pv.path ≠ dev := hall pv (List.mem_cons_self _ _)
      simp only [get_device_tier_loop, if_neg hp]
      exact ih2 fun b hb => hall b (List.mem_cons_of_mem _ hb)

/-- With tiers from 0 to `INT_MAX`, -1 comes out of the loop of
`get_device_tier` only when no section has the path. -/
theorem get_device_tier_loop_neg (dev : String) (l : List (pv_cfg α))
    (hnn : ∀ b ∈ l, 0 ≤ b.tier ∧ b.tier ≤ (INT_MAX : Int))
    (h : get_device_tier_loop dev l = -1) :
    ∀ b ∈ l, b.path ≠ dev := by
  induction l with
  | nil => intro b hb; simp at hb
  | cons pv rest ih =>
    have h0 := hnn pv (List.mem_cons_self _ _)
    have hconv : long_to_int pv.tier = pv.tier :=
      long_to_int_of_range pv.tier (by unfold INT_MIN; omega) h0.2
    by_cases hp : pv.path = dev
    · simp only [get_device_tier_loop, if_pos hp, hconv] at h
      omega
    · simp only [get_device_tier_loop, if_neg hp] at h
      intro b hb
      rcases List.mem_cons.mp hb with rfl | hb
      · exact hp
      · exact ih (fun b hb => hnn b (List.mem_cons_of_mem _ hb)) h b hb

/-- C11 (amended): for a configured volume whose tiers are non-negative and at
most `INT_MAX`, `get_device_tier` returns the tier of the first `pv` section
whose path equals `dev`, returns -1 when no section has that path, and returns
-1 only then. -/
theorem get_device_tier_first (pp : program_params α) (lv_name : String)
    (vol : volume_cfg α) (dev : String)
    (hvol : cfg_gettsec pp.cfg lv_name = some vol)
    (hnn : ∀ b ∈ vol.pv, 0 ≤ b.tier ∧ b.tier ≤ (INT_MAX : Int)) :
    (∀ pre b post, vol.pv = pre ++ b :: post → (∀ x ∈ pre, x.path ≠ dev) →
      b.path = dev → get_device_tier pp lv_name dev = Outcome.ret b.tier) ∧
    (get_device_tier pp lv_name dev = Outcome.ret (-1) ↔ ∀ b ∈ vol.pv, b.path ≠ dev) := by
  have hspec := get_device_tier_loop_spec dev vol.pv
  have hget : get_device_tier pp lv_name dev
      = Outcome.ret (get_device_tier_loop dev vol.pv) := by
    simp [get_device_tier, hvol]
  refine ⟨?_, ?_, ?_⟩
  · intro pre b post hl hpre hb
    have hb0 := hnn b (by rw [hl]; simp)
    rw [hget, hspec.1 pre b post hl hpre hb,
      long_to_int_of_range b.tier (by unfold INT_MIN; omega) hb0.2]
  · intro h
    rw [hget] at h
    exact get_device_tier_loop_neg dev vol.pv hnn (Outcome.ret.inj h)
  · intro hall
    rw [hget, hspec.2 hall]

/-- The loops of `get_tier_pinning_score` and `get_max_space_tier` return the
option of the first section with the tier, and 0 and -1 when no section has
the tier. -/
theorem tier_option_loops_spec [Zero α] (tier : Int) (l : List (pv_cfg α)) :
    (∀ pre b post, l = pre ++ b :: post → (∀ x ∈ pre, x.tier ≠ tier) → b.tier = tier →
      get_tier_pinning_score_loop tier l = b.pinningScore ∧
      get_max_space_tier_loop tier l = b.maxUsedSpace) ∧
    ((∀ b ∈ l, b.tier ≠ tier) →
      get_tier_pinning_score_loop tier l = cfloat.num 0 ∧
      get_max_space_tier_loop tier l = -1) := by
  induction l with
  | nil =>
    constructor
    · intro pre b post h
      simp at h
    · intro _
      exact ⟨rfl, rfl⟩
  | cons pv rest ih =>
    obtain ⟨ih1, ih2⟩ := ih
    constructor
    · intro pre b post hl hpre hb
      cases pre with
      | nil =>
        simp only [List.nil_append, List.cons.injEq] at hl
        obtain ⟨rfl, _⟩ := hl
        simp [get_tier_pinning_score_loop, get_max_space_tier_loop, hb]
      | cons p pre1 =>
        simp only [List.cons_append, List.cons.injEq] at hl
        obtain ⟨rfl, hrest⟩ := hl
        have hp : pv.tier ≠ tier := hpre pv (List.mem_cons_self _ _)
        simp only [get_tier_pinning_score_loop, get_max_space_tier_loop, if_neg hp]
        exact ih1 pre1 b post hrest (fun x hx => hpre x (List.mem_cons_of_mem _ hx)) hb
    · intro hall
      have hp : pv.tier ≠ tier := hall pv (List.mem_cons_self _ _)
      simp only [get_tier_pinning_score_loop, get_max_space_tier_loop, if_neg hp]
      exact ih2 fun b hb => hall b (List.mem_cons_of_mem _ hb)

/-- C12: for a configured volume both lookups return.  When a `pv` section has
tier `tier`, `get_tier_pinning_score` returns the `pinningScore` and
`get_max_space_tier` the `maxUsedSpace` of the first such section; when none
has, they return 0 and -1.  A section written without `maxUsedSpace` carries
the default -1 of `pv_opts`. -/
theorem tier_options_first_or_default [Zero α] (pp : program_params α)
    (lv_name : String) (vol : volume_cfg α) (tier : Int)
    (hvol : cfg_gettsec pp.cfg lv_name = some vol) :
    (∃ x y, get_tier_pinning_score pp lv_name tier = Outcome.ret x ∧
      get_max_space_tier pp lv_name tier = Outcome.ret y) ∧
    (∀ pre b post, vol.pv = pre ++ b :: post → (∀ x ∈ pre, x.tier ≠ tier) →
      b.tier = tier →
      get_tier_pinning_score pp lv_name tier = Outcome.ret b.pinningScore ∧
      get_max_space_tier pp lv_name tier = Outcome.ret b.maxUsedSpace) ∧
    ((∀ b ∈ vol.pv, b.tier ≠ tier) →
      get_tier_pinning_score pp lv_name tier = Outcome.ret (cfloat.num 0) ∧
      get_max_space_tier pp lv_name tier = Outcome.ret (-1)) ∧
    (∀ (t : Option Int) (ps : Option (cfloat α)) (path : String),
      (cfg_pv t ps path none).maxUsedSpace = -1) := by
  have hspec := tier_option_loops_spec tier vol.pv
  have h1 : get_tier_pinning_score pp lv_name tier
      = Outcome.ret (get_tier_pinning_score_loop tier vol.pv) := by
    simp [get_tier_pinning_score, hvol]
  have h2 : get_max_space_tier pp lv_name tier
      = Outcome.ret (get_max_space_tier_loop tier vol.pv) := by
    simp [get_max_space_tier, hvol]
  refine ⟨⟨_, _, h1, h2⟩, ?_, ?_, ?_⟩
  · intro pre b post hl hpre hb
    obtain ⟨e1, e2⟩ := hspec.1 pre b post hl hpre hb
    rw [h1, h2, e1, e2]
    exact ⟨rfl, rfl⟩
  · intro hall
    obtain ⟨e1, e2⟩ := hspec.2 hall
    rw [h1, h2, e1, e2]
    exact ⟨rfl, rfl⟩
  · intro t ps path
    rfl

end more_tier_proofs

/-- C11 (as stated, refuted): the non-negative tier 4294967295 of the binding
with path `/dev/a` is converted to `int` on return, so `get_device_tier`
answers -1 for `/dev/a` although a binding has that path. -/
theorem get_device_tier_narrowed :
    get_device_tier (one_volume [(4294967295, "/dev/a")]) "lv" "/dev/a"
      = Outcome.ret (-1) ∧
    (∀ v ∈ (one_volume [(4294967295, "/dev/a")]).cfg, ∀ b ∈ v.pv, 0 ≤ b.tier) ∧
    (∃ v ∈ (one_volume [(4294967295, "/dev/a")]).cfg, ∃ b ∈ v.pv, b.path = "/dev/a") := by
  decide

/-- C11 (amended) at the bindings `0 ↦ /dev/a`, `2 ↦ /dev/b`, `3 ↦ /dev/b`:
the device `/dev/b` is in tier 2, and `/dev/x` is in none. -/
theorem get_device_tier_first_witness :
    get_device_tier (one_volume [(0, "/dev/a"), (2, "/dev/b"), (3, "/dev/b")]) "lv" "/dev/b"
      = Outcome.ret 2 ∧
    get_device_tier (one_volume [(0, "/dev/a"), (2, "/dev/b"), (3, "/dev/b")]) "lv" "/dev/x"
      = Outcome.ret (-1) :=
  ⟨(get_device_tier_first (one_volume [(0, "/dev/a"), (2, "/dev/b"), (3, "/dev/b")]) "lv"
      { title := "lv",
        pv := [{ tier := 0, pinningScore := cfloat.num 0, path := "/dev/a", maxUsedSpace := -1 },
               { tier := 2, pinningScore := cfloat.num 0, path := "/dev/b", maxUsedSpace := -1 },
               { tier := 3, pinningScore := cfloat.num 0, path := "/dev/b", maxUsedSpace := -1 }] }
      "/dev/b" (by decide) (by decide)).1
      [{ tier := 0, pinningScore := cfloat.num 0, path := "/dev/a", maxUsedSpace := -1 }]
      { tier := 2, pinningScore := cfloat.num 0, path := "/dev/b", maxUsedSpace := -1 }
      [{ tier := 3, pinningScore := cfloat.num 0, path := "/dev/b", maxUsedSpace := -1 }]
      rfl (by decide) rfl,
   (get_device_tier_first (one_volume [(0, "/dev/a"), (2, "/dev/b"), (3, "/dev/b")]) "lv"
      { title := "lv",
        pv := [{ tier := 0, pinningScore := cfloat.num 0, path := "/dev/a", maxUsedSpace := -1 },
               { tier := 2, pinningScore := cfloat.num 0, path := "/dev/b", maxUsedSpace := -1 },
               { tier := 3, pinningScore := cfloat.num 0, path := "/dev/b", maxUsedSpace := -1 }] }
      "/dev/x" (by decide) (by decide)).2.mpr (by decide)⟩

/-- C12 at a volume with the sections `tier 1, pinningScore 7, maxUsedSpace
4096` and `tier 1, pinningScore 9`, the latter without `maxUsedSpace`: tier 1
gives 7 and 4096, the unmatched tier 5 gives 0 and -1. -/
theorem tier_options_first_or_default_witness :
    get_tier_pinning_score two_pv_volume "lv" 1 = Outcome.ret (cfloat.num 7) ∧
    get_max_space_tier two_pv_volume "lv" 1 = Outcome.ret 4096 ∧
    get_tier_pinning_score two_pv_volume "lv" 5 = Outcome.ret (cfloat.num 0) ∧
    get_max_space_tier two_pv_volume "lv" 5 = Outcome.ret (-1) :=
  have h := tier_options_first_or_default two_pv_volume "lv"
    { title := "lv",
      pv := [cfg_pv (some 1) (some (cfloat.num 7)) "/dev/a" (some 4096),
             cfg_pv (some 1) (some (cfloat.num 9)) "/dev/b" none] }
  have h1 := (h 1 rfl).2.1 [] (cfg_pv (some 1) (some (cfloat.num 7)) "/dev/a" (some 4096))
    [cfg_pv (some 1) (some (cfloat.num 9)) "/dev/b" none] rfl (by decide) rfl
  have h5 := (h 5 rfl).2.2.1 (by decide)
  ⟨h1.1, h1.2, h5.1, h5.2⟩

/-! ## Reads of `compare_extents` -/

/-- C19 (defect in the code): comparing `[1, 2]` with the store `[1]` of
length 1, whose block holds one extent, the loop reads position 0 and then
position 1 of both stores; position 1 is not below the length of the second
store, and lies outside its block. -/
theorem compare_extents_reads_past_length :
    compare_extents_reads (tight [1, 2]) (tight [1]) = [0, 1] ∧
    (tight [1]).length = 1 ∧
    capacity (tight [1]) = 1 ∧
    read_extent (tight [1]) 1 = none ∧
    compare_extents_reads (tight [1, 2]) (slack [1, 5] 1) = [0, 1] ∧
    (slack [1, 5] 1).length = 1 := by
  decide


/-! ## The value parsers -/

/-- C14 (defect in the code): `parse_time_value` stores 190 for `3:10`, three
minutes and ten seconds, where the comment above the function promises 11400,
three hours and ten minutes. -/
theorem parse_time_value_3_10 :
    parse_time_value "3:10".toList = parse_result.store 190 ∧ (190 : Int) ≠ 11400 := by
  decide

/-- C15 (defect in the code): white space in front of a number is skipped by
`strtol` and never seen by the checks for white space: ` 5m` is accepted as
300, `5m 30` as 330, and `1:` followed by a tab and `15:34` as 4534. -/
theorem parse_time_value_accepts_whitespace :
    parse_time_value " 5m".toList = parse_result.store 300 ∧
    parse_time_value "5m 30".toList = parse_result.store 330 ∧
    parse_time_value "1:\t15:34".toList = parse_result.store 4534 := by
  decide

/-- C20 (defect in the code): `16777216t` is accepted, and the product
`16777216 * 1024^4 = 2^64` wraps to the stored value 0, which is neither
positive nor the product. -/
theorem parse_size_value_wraps :
    parse_size_value "16777216t".toList = parse_result.store 0 ∧
    (16777216 : Int) * (1024 * 1024 * 1024 * 1024) = 2 ^ 64 := by
  decide

section strtol_proofs

/-- A value inside the range of `long` is not changed by wrapping. -/
theorem wrap_long_of_range (x : Int) (h1 : LONG_MIN ≤ x) (h2 : x ≤ LONG_MAX) :
    wrap_long x = x := by
  unfold wrap_long
  unfold LONG_MIN at h1
  unfold LONG_MAX at h2
  have h : (x + 2 ^ 63) % 2 ^ 64 = x + 2 ^ 63 :=
    Int.emod_eq_of_lt (by omega) (by omega)
  omega

/-- A digit is not white space. -/
theorem isspace_of_isdigit (c : Char) (h : isdigit c = true) : isspace c = false := by
  simp only [isdigit, decide_eq_true_eq] at h
  simp only [isspace, decide_eq_false_iff_not]
  omega

/-- A digit is not a sign. -/
theorem not_sign_of_isdigit (c : Char) (h : isdigit c = true) :
    ¬ (c.toNat = 45 ∨ c.toNat = 43) := by
  simp only [isdigit, decide_eq_true_eq] at h
  omega

/-- A run of digits followed by something that does not start with a digit is
split there by `takeWhile` and `dropWhile`. -/
theorem digits_split (ds rest : List Char) (hd : ∀ c ∈ ds, isdigit c = true)
    (hr : isdigit (peek rest) = false) :
    (ds ++ rest).takeWhile isdigit = ds ∧ (ds ++ rest).dropWhile isdigit = rest := by
  induction ds with
  | nil =>
    cases rest with
    | nil => exact ⟨rfl, rfl⟩
    | cons c t =>
      have hc : isdigit c = false := hr
      simp [List.takeWhile, List.dropWhile, hc]
  | cons d ds ih =>
    have hdd : isdigit d = true := hd d (List.mem_cons_self _ _)
    obtain ⟨ih1, ih2⟩ := ih fun c hc => hd c (List.mem_cons_of_mem _ hc)
    simp [List.takeWhile, List.dropWhile, hdd, ih1, ih2]

/-- `strtol` on a non-empty run of digits whose value fits in `long`, followed
by text that does not start with a digit: the value of the digits is returned
and `endptr` points to the text behind them. -/
theorem strtol_digits (ds rest : List Char) (hne : ds ≠ [])
    (hd : ∀ c ∈ ds, isdigit c = true) (hr : isdigit (peek rest) = false)
    (hmax : (decimal_value ds : Int) ≤ LONG_MAX) :
    strtol (ds ++ rest)
      = { value := (decimal_value ds : Int), endptr := rest, converted := true } := by
  obtain ⟨hsplit1, hsplit2⟩ := digits_split ds rest hd hr
  cases ds with
  | nil => exact absurd rfl hne
  | cons d ds1 =>
    have hdd : isdigit d = true := hd d (List.mem_cons_self _ _)
    have hsp : (d :: ds1 ++ rest).dropWhile isspace = d :: ds1 ++ rest := by
      simp [List.dropWhile, isspace_of_isdigit d hdd]
    have hsign : after_sign (d :: ds1 ++ rest) = d :: ds1 ++ rest := by
      simp only [List.cons_append, after_sign, if_neg (not_sign_of_isdigit d hdd)]
    have hminus : ¬ (peek (d :: ds1 ++ rest)).toNat = 45 := by
      have := not_sign_of_isdigit d hdd
      simp only [List.cons_append, peek]
      omega
    have hlow : ¬ (decimal_value (d :: ds1) : Int) < LONG_MIN := by
      unfold LONG_MIN
      have : (0 : Int) ≤ (decimal_value (d :: ds1) : Int) := Int.ofNat_nonneg _
      omega
    unfold strtol
    simp only [hsp, hsign, hsplit1, hsplit2, hminus, if_false, List.cons_ne_nil,
      if_neg (not_lt.mpr hmax), if_neg hlow]

/-- `strtol` never returns more than `LONG_MAX`. -/
theorem strtol_le_max (s : List Char) : (strtol s).value ≤ LONG_MAX := by
  unfold strtol
  simp only []
  split_ifs <;> simp only [LONG_MAX, LONG_MIN] at * <;> omega

end strtol_proofs


section time_proofs

/-- At the end of the string `strtol` converts nothing. -/
theorem strtol_nil : strtol [] = { value := 0, endptr := [], converted := false } := by
  decide

/-- The last part of `parse_time_value` when nothing is left to read. -/
theorem parse_time_third_end (sum : Int) (endptr : List Char)
    (h : advance endptr = []) :
    parse_time_third sum endptr = parse_result.store (wrap_long (sum + 0)) := by
  unfold parse_time_third
  rw [h, strtol_nil]
  simp only []
  rw [if_neg (by decide), if_neg (by decide), if_neg (by decide)]

/-- The middle and last part of `parse_time_value` when nothing is left to
read after the first number and its unit. -/
theorem parse_time_second_end (sum : Int) (endptr : List Char)
    (h : advance endptr = []) :
    parse_time_second sum endptr
      = parse_result.store (wrap_long (wrap_long (sum + 0) + 0)) := by
  unfold parse_time_second
  rw [h, strtol_nil]
  simp only []
  rw [if_neg (by decide), if_neg (by decide), if_pos (by decide)]
  exact parse_time_third_end _ [] (by decide)

/-- The last part of `parse_time_value` on a final decimal number. -/
theorem parse_time_third_digits (sum : Int) (c : Char) (ds : List Char) (s : Nat)
    (hc : c ≠ Char.ofNat 0) (hs : is_decimal ds s) (hlt : (s : Int) < LONG_MAX) :
    parse_time_third sum (c :: ds) = parse_result.store (wrap_long (sum + s)) := by
  obtain ⟨hne, hd, hv⟩ := hs
  have hadv : advance (c :: ds) = ds := by
    simp [advance, peek, hc]
  have hst := strtol_digits ds [] hne hd (by decide) (by rw [hv]; omega)
  rw [List.append_nil, hv] at hst
  unfold parse_time_third
  rw [hadv, hst]
  simp only []
  have h0 : ¬ ((s : Int) < 0) := by omega
  rw [if_neg (by omega), if_neg h0, if_neg (by decide)]

/-- The middle part of `parse_time_value` on a decimal number that ends the
string. -/
theorem parse_time_second_last (sum : Int) (c : Char) (ds : List Char) (s : Nat)
    (hc : c ≠ Char.ofNat 0) (hs : is_decimal ds s) (hlt : (s : Int) < LONG_MAX) :
    parse_time_second sum (c :: ds)
      = parse_result.store (wrap_long (wrap_long (sum + s) + 0)) := by
  obtain ⟨hne, hd, hv⟩ := hs
  have hadv : advance (c :: ds) = ds := by
    simp [advance, peek, hc]
  have hst := strtol_digits ds [] hne hd (by decide) (by rw [hv]; omega)
  rw [List.append_nil, hv] at hst
  unfold parse_time_second
  rw [hadv, hst]
  simp only []
  have h0 : ¬ ((s : Int) < 0) := by omega
  rw [if_neg (by omega), if_neg h0, if_pos (by decide)]
  exact parse_time_third_end _ [] (by decide)

/-- The middle part of `parse_time_value` on a decimal number followed by a
colon and a final decimal number. -/
theorem parse_time_second_colon (sum : Int) (c : Char) (dm ds : List Char) (m s : Nat)
    (hc : c ≠ Char.ofNat 0) (hm : is_decimal dm m) (hmlt : (m : Int) < LONG_MAX)
    (hs : is_decimal ds s) (hslt : (s : Int) < LONG_MAX) :
    parse_time_second sum (c :: (dm ++ ':' :: ds))
      = parse_result.store (wrap_long (wrap_long (wrap_long (sum + m) * 60) + s)) := by
  obtain ⟨hne, hd, hv⟩ := hm
  have hadv : advance (c :: (dm ++ ':' :: ds)) = dm ++ ':' :: ds := by
    simp [advance, peek, hc]
  have hcolon : isdigit (peek (':' :: ds)) = false := by
    show isdigit ':' = false
    decide
  have hpk : peek (':' :: ds) = ':' := rfl
  have hst := strtol_digits dm (':' :: ds) hne hd hcolon (by rw [hv]; omega)
  rw [hv] at hst
  unfold parse_time_second
  rw [hadv, hst]
  simp only []
  have h0 : ¬ ((m : Int) < 0) := by omega
  rw [if_neg (by omega), if_neg h0, hpk, if_neg (by decide), if_pos rfl]
  exact parse_time_third_digits _ ':' ds s (by decide) hs hslt

/-- The first part of `parse_time_value` on a decimal number below `LONG_MAX`
followed by text that does not start with a digit: the first `switch`. -/
theorem parse_time_value_first (dn rest : List Char) (n : Nat)
    (hn : is_decimal dn n) (hlt : (n : Int) < LONG_MAX)
    (hr : isdigit (peek rest) = false) :
    parse_time_value (dn ++ rest) =
      if peek rest = Char.ofNat 0 ∨ peek rest = 'm' ∨ peek rest = ':' then
        parse_time_second (wrap_long ((n : Int) * 60)) rest
      else if peek rest = 'h' then
        parse_time_second (wrap_long ((n : Int) * 3600)) rest
      else if peek rest = 'd' then
        parse_time_second (wrap_long ((n : Int) * (24 * 60 * 60))) rest
      else if peek rest = 's' then
        parse_time_second (n : Int) rest
      else if peek rest = '\t' ∨ peek rest = ' ' then
        parse_result.fail cfg_error.whitespace
      else parse_result.fail cfg_error.trailing := by
  obtain ⟨hne, hd, hv⟩ := hn
  have hst := strtol_digits dn rest hne hd hr (by rw [hv]; omega)
  rw [hv] at hst
  unfold parse_time_value
  rw [hst]
  simp only []
  have h0 : ¬ ((n : Int) < 0) := by omega
  rw [if_neg (by decide), if_neg (by omega), if_neg h0]

end time_proofs


section time_forms

/-- A non-negative value up to `LONG_MAX` is not changed by wrapping. -/
theorem wrap_long_of_nonneg (x : Int) (h0 : 0 ≤ x) (h : x ≤ LONG_MAX) :
    wrap_long x = x :=
  wrap_long_of_range x (by unfold LONG_MIN; omega) h

/-- A number followed by one unit character or by nothing: after the first
`switch` the sum is stored as it is. -/
theorem parse_time_second_unit (sum : Int) (rest : List Char)
    (hrest : advance rest = []) (h0 : 0 ≤ sum) (h : sum ≤ LONG_MAX) :
    parse_time_second sum rest = parse_result.store sum := by
  rw [parse_time_second_end sum rest hrest]
  simp only [add_zero]
  rw [wrap_long_of_nonneg sum h0 h, wrap_long_of_nonneg sum h0 h]

/-- C13 (amended): with `dn`, `dh`, `dm`, `ds` decimal writings of `n`, `h`,
`m`, `s`, `parse_time_value` stores `n` for `<n>s` when `n < LONG_MAX`; `60*n`
for `<n>m` and for the bare `<n>`, `3600*n` for `<n>h` and `86400*n` for
`<n>d` when that product fits in `long`; `3600*h + 60*m + s` for `h:m:s` and
`60*m + s` for `m:s` when that sum fits in `long` and `s < LONG_MAX`. -/
theorem parse_time_value_forms (dn dh dm ds : List Char) (n h m s : Nat)
    (hn : is_decimal dn n) (hh : is_decimal dh h) (hm : is_decimal dm m)
    (hs : is_decimal ds s) :
    ((n : Int) < LONG_MAX →
      parse_time_value (dn ++ ['s']) = parse_result.store n) ∧
    (60 * (n : Int) ≤ LONG_MAX →
      parse_time_value (dn ++ ['m']) = parse_result.store (60 * n)) ∧
    (3600 * (n : Int) ≤ LONG_MAX →
      parse_time_value (dn ++ ['h']) = parse_result.store (3600 * n)) ∧
    (86400 * (n : Int) ≤ LONG_MAX →
      parse_time_value (dn ++ ['d']) = parse_result.store (86400 * n)) ∧
    (60 * (n : Int) ≤ LONG_MAX →
      parse_time_value dn = parse_result.store (60 * n)) ∧
    (3600 * (h : Int) + 60 * m + s ≤ LONG_MAX → (s : Int) < LONG_MAX →
      parse_time_value (dh ++ ':' :: (dm ++ ':' :: ds))
        = parse_result.store (3600 * h + 60 * m + s)) ∧
    (60 * (m : Int) + s ≤ LONG_MAX → (s : Int) < LONG_MAX →
      parse_time_value (dm ++ ':' :: ds) = parse_result.store (60 * m + s)) := by
  have hM : LONG_MAX = 2 ^ 63 - 1 := rfl
  refine ⟨?_, ?_, ?_, ?_, ?_, ?_, ?_⟩
  · intro hlt
    rw [parse_time_value_first dn ['s'] n hn hlt (by decide)]
    rw [if_neg (by decide), if_neg (by decide), if_neg (by decide), if_pos (by decide)]
    exact parse_time_second_unit _ _ (by decide) (by omega) (by omega)
  · intro hp
    rw [parse_time_value_first dn ['m'] n hn (by omega) (by decide)]
    rw [if_pos (by decide), wrap_long_of_nonneg _ (by omega) (by omega)]
    rw [parse_time_second_unit _ _ (by decide) (by omega) (by omega)]
    congr 1
    omega
  · intro hp
    rw [parse_time_value_first dn ['h'] n hn (by omega) (by decide)]
    rw [if_neg (by decide), if_pos (by decide), wrap_long_of_nonneg _ (by omega) (by omega)]
    rw [parse_time_second_unit _ _ (by decide) (by omega) (by omega)]
    congr 1
    omega
  · intro hp
    rw [parse_time_value_first dn ['d'] n hn (by omega) (by decide)]
    rw [if_neg (by decide), if_neg (by decide), if_pos (by decide),
      wrap_long_of_nonneg _ (by omega) (by omega)]
    rw [parse_time_second_unit _ _ (by decide) (by omega) (by omega)]
    congr 1
    omega
  · intro hp
    have h1 := parse_time_value_first dn [] n hn (by omega) (by decide)
    rw [List.append_nil] at h1
    rw [h1, if_pos (by decide), wrap_long_of_nonneg _ (by omega) (by omega)]
    rw [parse_time_second_unit _ _ (by decide) (by omega) (by omega)]
    congr 1
    omega
  · intro hp hslt
    have hcolon : isdigit (peek (':' :: (dm ++ ':' :: ds))) = false := by
      show isdigit ':' = false
      decide
    have hpk : peek (':' :: (dm ++ ':' :: ds)) = ':' := rfl
    rw [parse_time_value_first dh _ h hh (by omega) hcolon, hpk, if_pos (by decide)]
    rw [parse_time_second_colon _ ':' dm ds m s (by decide) hm (by omega) hs hslt]
    rw [wrap_long_of_nonneg ((h : Int) * 60) (by omega) (by omega),
      wrap_long_of_nonneg ((h : Int) * 60 + m) (by omega) (by omega),
      wrap_long_of_nonneg (((h : Int) * 60 + m) * 60) (by omega) (by omega),
      wrap_long_of_nonneg _ (by omega) (by omega)]
    congr 1
    omega
  · intro hp hslt
    have hcolon : isdigit (peek (':' :: ds)) = false := by
      show isdigit ':' = false
      decide
    have hpk : peek (':' :: ds) = ':' := rfl
    rw [parse_time_value_first dm _ m hm (by omega) hcolon, hpk, if_pos (by decide)]
    rw [parse_time_second_last _ ':' ds s (by decide) hs hslt]
    rw [wrap_long_of_nonneg ((m : Int) * 60) (by omega) (by omega),
      wrap_long_of_nonneg ((m : Int) * 60 + s) (by omega) (by omega), add_zero,
      wrap_long_of_nonneg _ (by omega) (by omega)]
    congr 1
    omega

end time_forms

/-- C13 (as stated, refuted): for `n = LONG_MAX` the string `<n>s` involves no
product and `n` is a `long`, yet `parse_time_value` rejects it as too large;
likewise `0:<n>`, whose value `60*0 + n` is `n`. -/
theorem parse_time_value_rejects_long_max :
    is_decimal "9223372036854775807".toList 9223372036854775807 ∧
    ((9223372036854775807 : Nat) : Int) = LONG_MAX ∧
    parse_time_value "9223372036854775807s".toList
      = parse_result.fail cfg_error.too_large ∧
    parse_time_value "0:9223372036854775807".toList
      = parse_result.fail cfg_error.too_large := by
  refine ⟨⟨by decide, by decide, by decide⟩, by decide, by decide, by decide⟩

/-- C13 (amended) on the examples of the claim: `5m` is 300, `20s` is 20, `3h`
is 10800 and `1:15:34` is 4534. -/
theorem parse_time_value_forms_witness :
    parse_time_value "5m".toList = parse_result.store 300 ∧
    parse_time_value "20s".toList = parse_result.store 20 ∧
    parse_time_value "3h".toList = parse_result.store 10800 ∧
    parse_time_value "1:15:34".toList = parse_result.store 4534 :=
  have d5 : is_decimal "5".toList 5 := ⟨by decide, by decide, by decide⟩
  have d20 : is_decimal "20".toList 20 := ⟨by decide, by decide, by decide⟩
  have d3 : is_decimal "3".toList 3 := ⟨by decide, by decide, by decide⟩
  have d1 : is_decimal "1".toList 1 := ⟨by decide, by decide, by decide⟩
  have d15 : is_decimal "15".toList 15 := ⟨by decide, by decide, by decide⟩
  have d34 : is_decimal "34".toList 34 := ⟨by decide, by decide, by decide⟩
  ⟨(parse_time_value_forms "5".toList "1".toList "15".toList "34".toList 5 1 15 34
      d5 d1 d15 d34).2.1 (by decide),
   (parse_time_value_forms "20".toList "1".toList "15".toList "34".toList 20 1 15 34
      d20 d1 d15 d34).1 (by decide),
   (parse_time_value_forms "3".toList "1".toList "15".toList "34".toList 3 1 15 34
      d3 d1 d15 d34).2.2.1 (by decide),
   (parse_time_value_forms "5".toList "1".toList "15".toList "34".toList 5 1 15 34
      d5 d1 d15 d34).2.2.2.2.2.1 (by decide) (by decide)⟩


section time_failures

/-- When the last part of `parse_time_value` stores a value, the third number
is at least 0 and below `LONG_MAX` and the string ends behind it. -/
theorem parse_time_third_store (sum : Int) (endptr : List Char) (v : Int)
    (h : parse_time_third sum endptr = parse_result.store v) :
    0 ≤ (strtol (advance endptr)).value ∧
    (strtol (advance endptr)).value < LONG_MAX ∧
    peek (strtol (advance endptr)).endptr = Char.ofNat 0 := by
  have hle := strtol_le_max (advance endptr)
  unfold parse_time_third at h
  simp only [] at h
  split_ifs at h with h1 h2 h3
  exact ⟨not_lt.mp h2, lt_of_le_of_ne hle h1, not_not.mp h3⟩

/-- When the middle part of `parse_time_value` stores a value, the second and
the third number are at least 0 and below `LONG_MAX`, the second is followed by
the end of the string or a colon, and the string ends behind the third. -/
theorem parse_time_second_store (sum : Int) (endptr : List Char) (v : Int)
    (h : parse_time_second sum endptr = parse_result.store v) :
    0 ≤ (strtol (advance endptr)).value ∧
    (strtol (advance endptr)).value < LONG_MAX ∧
    (peek (strtol (advance endptr)).endptr = Char.ofNat 0 ∨
      peek (strtol (advance endptr)).endptr = ':') ∧
    0 ≤ (strtol (advance (strtol (advance endptr)).endptr)).value ∧
    (strtol (advance (strtol (advance endptr)).endptr)).value < LONG_MAX ∧
    peek (strtol (advance (strtol (advance endptr)).endptr)).endptr = Char.ofNat 0 := by
  have hle := strtol_le_max (advance endptr)
  unfold parse_time_second at h
  simp only [] at h
  split_ifs at h with h1 h2 h3 h4 h5
  · exact ⟨not_lt.mp h2, lt_of_le_of_ne hle h1, Or.inl h3, parse_time_third_store _ _ v h⟩
  · exact ⟨not_lt.mp h2, lt_of_le_of_ne hle h1, Or.inr h4, parse_time_third_store _ _ v h⟩

/-- Everything that holds of the three numbers when `parse_time_value` stores a
value. -/
theorem parse_time_value_store (value : List Char) (v : Int)
    (h : parse_time_value value = parse_result.store v) :
    (time_component1 value).converted = true ∧
    0 ≤ (time_component1 value).value ∧ (time_component1 value).value < LONG_MAX ∧
    peek (time_component1 value).endptr ∈ [Char.ofNat 0, 's', 'm', 'h', 'd', ':'] ∧
    0 ≤ (time_component2 value).value ∧ (time_component2 value).value < LONG_MAX ∧
    (peek (time_component2 value).endptr = Char.ofNat 0 ∨
      peek (time_component2 value).endptr = ':') ∧
    0 ≤ (time_component3 value).value ∧ (time_component3 value).value < LONG_MAX ∧
    peek (time_component3 value).endptr = Char.ofNat 0 := by
  have hle := strtol_le_max value
  unfold time_component3 time_component2 time_component1
  unfold parse_time_value at h
  simp only [] at h
  split_ifs at h with h0 h1 h2 h3 h4 h5 h6 h7
  · refine ⟨by simpa using h0, not_lt.mp h2, lt_of_le_of_ne hle h1, ?_,
      parse_time_second_store _ _ v h⟩
    rcases h3 with h3 | h3 | h3 <;> simp [h3]
  · refine ⟨by simpa using h0, not_lt.mp h2, lt_of_le_of_ne hle h1, ?_,
      parse_time_second_store _ _ v h⟩
    simp [h4]
  · refine ⟨by simpa using h0, not_lt.mp h2, lt_of_le_of_ne hle h1, ?_,
      parse_time_second_store _ _ v h⟩
    simp [h5]
  · refine ⟨by simpa using h0, not_lt.mp h2, lt_of_le_of_ne hle h1, ?_,
      parse_time_second_store _ _ v h⟩
    simp [h6]

/-- A parser result that is not a stored value is a failure. -/
theorem failed_of_not_store (r : parse_result) (h : ∀ v, r ≠ parse_result.store v) :
    r.failed = true := by
  cases r with
  | fail e => rfl
  | store v => exact absurd rfl (h v)

/-- C16: `parse_time_value` fails, storing nothing, (a) when its first `strtol`
converts no number, (b) when one of the three numbers it reads is negative,
(c) when one of them is `LONG_MAX`, (d) when the first number is followed by a
character other than the end of the string, `s`, `m`, `h`, `d` and `:`, the
second by one other than the end of the string and `:`, or the third by any
character; and whenever it stores a value each of the three numbers is at
least 0 and below `LONG_MAX`. -/
theorem parse_time_value_failures (value : List Char) :
    ((time_component1 value).converted = false →
      (parse_time_value value).failed = true) ∧
    (((time_component1 value).value < 0 ∨ (time_component2 value).value < 0 ∨
        (time_component3 value).value < 0) →
      (parse_time_value value).failed = true) ∧
    (((time_component1 value).value = LONG_MAX ∨
        (time_component2 value).value = LONG_MAX ∨
        (time_component3 value).value = LONG_MAX) →
      (parse_time_value value).failed = true) ∧
    ((peek (time_component1 value).endptr ∉ [Char.ofNat 0, 's', 'm', 'h', 'd', ':'] ∨
        (peek (time_component2 value).endptr ≠ Char.ofNat 0 ∧
          peek (time_component2 value).endptr ≠ ':') ∨
        peek (time_component3 value).endptr ≠ Char.ofNat 0) →
      (parse_time_value value).failed = true) ∧
    (∀ v, parse_time_value value = parse_result.store v →
      (0 ≤ (time_component1 value).value ∧ (time_component1 value).value < LONG_MAX) ∧
      (0 ≤ (time_component2 value).value ∧ (time_component2 value).value < LONG_MAX) ∧
      (0 ≤ (time_component3 value).value ∧ (time_component3 value).value < LONG_MAX)) := by
  refine ⟨?_, ?_, ?_, ?_, ?_⟩
  · intro ha
    apply failed_of_not_store
    intro v hv
    have := (parse_time_value_store value v hv).1
    rw [ha] at this
    exact Bool.noConfusion this
  · intro hb
    apply failed_of_not_store
    intro v hv
    obtain ⟨_, a1, _, _, a2, _, _, a3, _, _⟩ := parse_time_value_store value v hv
    rcases hb with hb | hb | hb <;> omega
  · intro hc
    apply failed_of_not_store
    intro v hv
    obtain ⟨_, _, a1, _, _, a2, _, _, a3, _⟩ := parse_time_value_store value v hv
    rcases hc with hc | hc | hc <;> omega
  · intro hd
    apply failed_of_not_store
    intro v hv
    obtain ⟨_, _, _, a1, _, _, a2, _, _, a3⟩ := parse_time_value_store value v hv
    rcases hd with hd | hd | hd
    · exact hd a1
    · rcases a2 with a2 | a2
      · exact hd.1 a2
      · exact hd.2 a2
    · exact hd a3
  · intro v hv
    obtain ⟨_, a1, b1, _, a2, b2, _, a3, b3, _⟩ := parse_time_value_store value v hv
    exact ⟨⟨a1, b1⟩, ⟨a2, b2⟩, ⟨a3, b3⟩⟩

end time_failures

/-- C16 on examples: `x5` has no leading number, `-5m` has a negative number,
`1:99999999999999999999` has a number that saturates, `5x` and `1:30m` have an
unrecognised character behind a number; `1:15:34` is stored with the numbers 1,
15 and 34. -/
theorem parse_time_value_failures_witness :
    (parse_time_value "x5".toList).failed = true ∧
    (parse_time_value "-5m".toList).failed = true ∧
    (parse_time_value "1:99999999999999999999".toList).failed = true ∧
    (parse_time_value "5x".toList).failed = true ∧
    (parse_time_value "1:30m".toList).failed = true ∧
    ((0 ≤ (time_component1 "1:15:34".toList).value ∧
        (time_component1 "1:15:34".toList).value < LONG_MAX) ∧
      (0 ≤ (time_component2 "1:15:34".toList).value ∧
        (time_component2 "1:15:34".toList).value < LONG_MAX) ∧
      (0 ≤ (time_component3 "1:15:34".toList).value ∧
        (time_component3 "1:15:34".toList).value < LONG_MAX)) :=
  ⟨(parse_time_value_failures "x5".toList).1 (by decide),
   (parse_time_value_failures "-5m".toList).2.1 (Or.inl (by decide)),
   (parse_time_value_failures "1:99999999999999999999".toList).2.2.1
     (Or.inr (Or.inl (by decide))),
   (parse_time_value_failures "5x".toList).2.2.2.1 (Or.inl (by decide)),
   (parse_time_value_failures "1:30m".toList).2.2.2.1 (Or.inr (Or.inl (by decide))),
   (parse_time_value_failures "1:15:34".toList).2.2.2.2 4534 (by decide)⟩


section size_proofs

/-- The `switch` of `parse_size_value` takes its `default` branch exactly for
the characters other than the end of the string and the unit letters. -/
theorem size_unit_eq_none (c : Char) :
    size_unit c = none ↔
      c ∉ [Char.ofNat 0, 'b', 'B', 's', 'S', 'k', 'K', 'm', 'M', 'g', 'G', 't', 'T'] := by
  unfold size_unit
  simp only [List.mem_cons, List.mem_singleton, List.not_mem_nil, or_false]
  split_ifs <;> simp <;> tauto

/-- `parse_size_value` on a decimal number between 0 and `LONG_MAX` followed by
text that does not start with a digit: the `switch` and the check for trailing
characters. -/
theorem parse_size_value_digits (dn rest : List Char) (n : Nat)
    (hn : is_decimal dn n) (hpos : 0 < n) (hlt : (n : Int) < LONG_MAX)
    (hr : isdigit (peek rest) = false) :
    parse_size_value (dn ++ rest) =
      match size_unit (peek rest) with
      | none => parse_result.fail cfg_error.trailing
      | some mult =>
        if peek rest ≠ Char.ofNat 0 ∧ peek rest.tail ≠ Char.ofNat 0 then
          parse_result.fail cfg_error.trailing
        else parse_result.store (wrap_long ((n : Int) * mult)) := by
  obtain ⟨hne, hd, hv⟩ := hn
  have hst := strtol_digits dn rest hne hd hr (by rw [hv]; omega)
  rw [hv] at hst
  unfold parse_size_value
  rw [hst]
  simp only []
  have h0 : ¬ ((n : Int) < 0) := by omega
  have h1 : ¬ ((n : Int) = 0) := by omega
  rw [if_neg (by decide), if_neg (by omega), if_neg h0, if_neg h1]

/-- `parse_size_value` on a decimal number between 0 and `LONG_MAX` followed by
one unit letter, when the product fits in `long`. -/
theorem parse_size_value_unit (dn : List Char) (n : Nat) (c : Char) (mult : Int)
    (hn : is_decimal dn n) (hpos : 0 < n) (hlt : (n : Int) < LONG_MAX)
    (hc : isdigit c = false) (hu : size_unit c = some mult) (hm : 0 ≤ mult)
    (hfit : (n : Int) * mult ≤ LONG_MAX) :
    parse_size_value (dn ++ [c]) = parse_result.store ((n : Int) * mult) := by
  rw [parse_size_value_digits dn [c] n hn hpos hlt hc]
  have hpk : peek [c] = c := rfl
  have htl : ¬ (peek [c] ≠ Char.ofNat 0 ∧ peek [c].tail ≠ Char.ofNat 0) := by
    intro h
    exact h.2 rfl
  rw [hpk] at htl ⊢
  rw [hu]
  simp only []
  rw [if_neg htl, wrap_long_of_nonneg _ (Int.mul_nonneg (Int.ofNat_nonneg _) hm) hfit]

/-- C17: with `dn` a decimal writing of `n` and `0 < n < LONG_MAX`,
`parse_size_value` stores `n` for `<n>` alone, and for `<n>` followed by a unit
letter it stores `n` times the multiplier of the letter, 1 for `b`, 512 for
`s`, 1024 for `k`, `1024^2 = 1048576` for `m`, `1024^3 = 1073741824` for `g`,
`1024^4 = 1099511627776` for `t`, in either case, when that product fits in
`long`. -/
theorem parse_size_value_units (dn : List Char) (n : Nat)
    (hn : is_decimal dn n) (hpos : 0 < n) (hlt : (n : Int) < LONG_MAX) :
    parse_size_value dn = parse_result.store n ∧
    ∀ p ∈ [('b', (1 : Int)), ('B', 1), ('s', 512), ('S', 512), ('k', 1024), ('K', 1024),
        ('m', 1048576), ('M', 1048576), ('g', 1073741824), ('G', 1073741824),
        ('t', 1099511627776), ('T', 1099511627776)],
      (n : Int) * p.2 ≤ LONG_MAX →
      parse_size_value (dn ++ [p.1]) = parse_result.store ((n : Int) * p.2) := by
  constructor
  · have h := parse_size_value_digits dn [] n hn hpos hlt (by decide)
    rw [List.append_nil] at h
    rw [h]
    have hu : size_unit (peek []) = some 1 := by decide
    rw [hu]
    simp only []
    rw [if_neg (fun h => h.1 rfl), mul_one,
      wrap_long_of_nonneg _ (Int.ofNat_nonneg _) (le_of_lt hlt)]
  · intro p hp hfit
    simp only [List.mem_cons, List.mem_singleton, List.not_mem_nil, or_false] at hp
    rcases hp with rfl | rfl | rfl | rfl | rfl | rfl | rfl | rfl | rfl | rfl | rfl | rfl <;>
      exact parse_size_value_unit dn n _ _ hn hpos hlt (by decide) (by decide)
        (by decide) hfit

/-- C18: `parse_size_value` fails, storing nothing, exactly when its `strtol`
converts no number, or the number is at most 0, or it is `LONG_MAX`, or the
character behind the number is neither the end of the string nor one of
`b s k m g t` in either case, or a further character follows the character
behind the number.  `0` is rejected as zero, `5x` for its trailing character. -/
theorem parse_size_value_fails_iff (value : List Char) :
    ((parse_size_value value).failed = true ↔
      ((strtol value).converted = false ∨
        (strtol value).value ≤ 0 ∨
        (strtol value).value = LONG_MAX ∨
        peek (strtol value).endptr ∉
          [Char.ofNat 0, 'b', 'B', 's', 'S', 'k', 'K', 'm', 'M', 'g', 'G', 't', 'T'] ∨
        (peek (strtol value).endptr ≠ Char.ofNat 0 ∧
          peek (strtol value).endptr.tail ≠ Char.ofNat 0))) ∧
    parse_size_value "0".toList = parse_result.fail cfg_error.zero ∧
    parse_size_value "5x".toList = parse_result.fail cfg_error.trailing := by
  refine ⟨?_, by decide, by decide⟩
  rw [← size_unit_eq_none]
  unfold parse_size_value
  simp only []
  by_cases h0 : (strtol value).converted = false
  · simp [h0, parse_result.failed]
  · by_cases h1 : (strtol value).value = LONG_MAX
    · simp [h0, h1, parse_result.failed]
    · by_cases h2 : (strtol value).value < 0
      · rw [if_neg h0, if_neg h1, if_pos h2]
        simp only [parse_result.failed, true_iff]
        exact Or.inr (Or.inl (le_of_lt h2))
      · by_cases h3 : (strtol value).value = 0
        · rw [if_neg h0, if_neg h1, if_neg h2, if_pos h3]
          simp only [parse_result.failed, true_iff]
          exact Or.inr (Or.inl (le_of_eq h3))
        · have hpos : ¬ (strtol value).value ≤ 0 := by omega
          rw [if_neg h0, if_neg h1, if_neg h2, if_neg h3]
          cases hu : size_unit (peek (strtol value).endptr) with
          | none => simp [parse_result.failed]
          | some mult =>
            simp only []
            by_cases h4 : peek (strtol value).endptr ≠ Char.ofNat 0 ∧
                peek (strtol value).endptr.tail ≠ Char.ofNat 0
            · rw [if_pos h4]
              simp only [parse_result.failed, true_iff]
              exact Or.inr (Or.inr (Or.inr (Or.inr h4)))
            · rw [if_neg h4]
              simp only [parse_result.failed, Bool.false_eq_true, false_iff]
              rintro (h | h | h | h | h)
              · exact h0 h
              · exact hpos h
              · exact h1 h
              · exact Option.noConfusion h
              · exact h4 h

end size_proofs

/-- C17 on the examples of the claim: `4b` is 4, `1k` is 1024, `4M` is 4194304
and `11G` is 11811160064. -/
theorem parse_size_value_units_witness :
    parse_size_value "4b".toList = parse_result.store 4 ∧
    parse_size_value "1k".toList = parse_result.store 1024 ∧
    parse_size_value "4M".toList = parse_result.store 4194304 ∧
    parse_size_value "11G".toList = parse_result.store 11811160064 :=
  have d4 : is_decimal "4".toList 4 := ⟨by decide, by decide, by decide⟩
  have d1 : is_decimal "1".toList 1 := ⟨by decide, by decide, by decide⟩
  have d11 : is_decimal "11".toList 11 := ⟨by decide, by decide, by decide⟩
  ⟨(parse_size_value_units "4".toList 4 d4 (by decide) (by decide)).2 ('b', 1)
      (by decide) (by decide),
   (parse_size_value_units "1".toList 1 d1 (by decide) (by decide)).2 ('k', 1024)
      (by decide) (by decide),
   (parse_size_value_units "4".toList 4 d4 (by decide) (by decide)).2 ('M', 1048576)
      (by decide) (by decide),
   (parse_size_value_units "11".toList 11 d11 (by decide) (by decide)).2 ('G', 1073741824)
      (by decide) (by decide)⟩


section decimal_proofs

/-- The value of a run of digits started with an accumulator. -/
theorem decimal_foldl (ds : List Char) :
    ∀ acc : Nat, ds.foldl (fun acc c => 10 * acc + (c.toNat - 48)) acc
      = acc * 10 ^ ds.length + decimal_value ds := by
  induction ds with
  | nil => intro acc; simp [decimal_value]
  | cons d ds ih =>
    intro acc
    unfold decimal_value
    simp only [List.foldl_cons, List.length_cons]
    rw [ih (10 * acc + (d.toNat - 48)), ih (10 * 0 + (d.toNat - 48))]
    ring

/-- The value of a digit in front of a run of digits. -/
theorem decimal_value_cons (d : Char) (ds : List Char) :
    decimal_value (d :: ds) = (d.toNat - 48) * 10 ^ ds.length + decimal_value ds := by
  have h := decimal_foldl ds (10 * 0 + (d.toNat - 48))
  unfold decimal_value at h ⊢
  simp only [List.foldl_cons]
  rw [h]
  ring

/-- The characters `Nat.digitChar` gives for 0 to 9 are the digits with those
values. -/
theorem digitChar_digit :
    ∀ k, k < 10 → isdigit (Nat.digitChar k) = true ∧ (Nat.digitChar k).toNat - 48 = k := by
  decide

/-- The digits `Nat.toDigitsCore` puts in front of a run of digits. -/
theorem toDigitsCore_decimal :
    ∀ (fuel n : Nat) (ds : List Char), n < fuel → (∀ c ∈ ds, isdigit c = true) →
      (∀ c ∈ Nat.toDigitsCore 10 fuel n ds, isdigit c = true) ∧
      Nat.toDigitsCore 10 fuel n ds ≠ [] ∧
      decimal_value (Nat.toDigitsCore 10 fuel n ds)
        = n * 10 ^ ds.length + decimal_value ds := by
  intro fuel
  induction fuel with
  | zero => intro n ds h; omega
  | succ fuel ih =>
    intro n ds hn hds
    obtain ⟨hd1, hd2⟩ := digitChar_digit (n % 10) (Nat.mod_lt _ (by decide))
    have hall : ∀ c ∈ Nat.digitChar (n % 10) :: ds, isdigit c = true := by
      intro c hc
      rcases List.mem_cons.mp hc with rfl | hc
      · exact hd1
      · exact hds c hc
    unfold Nat.toDigitsCore
    simp only []
    by_cases h0 : n / 10 = 0
    · rw [if_pos h0]
      refine ⟨hall, List.cons_ne_nil _ _, ?_⟩
      rw [decimal_value_cons, hd2]
      have : n % 10 = n := by omega
      rw [this]
    · rw [if_neg h0]
      obtain ⟨i1, i2, i3⟩ := ih (n / 10) (Nat.digitChar (n % 10) :: ds) (by omega) hall
      refine ⟨i1, i2, ?_⟩
      rw [i3, decimal_value_cons, hd2, List.length_cons, pow_succ]
      have hdm : n = 10 * (n / 10) + n % 10 := (Nat.div_add_mod n 10).symm
      nth_rewrite 3 [hdm]
      ring

/-- The usual decimal writing of a number, `Nat.toDigits 10 n`, is a decimal
writing of it. -/
theorem is_decimal_toDigits (n : Nat) : is_decimal (Nat.toDigits 10 n) n := by
  obtain ⟨h1, h2, h3⟩ := toDigitsCore_decimal (n + 1) n [] (by omega) (by simp)
  refine ⟨h2, h1, ?_⟩
  unfold Nat.toDigits
  rw [h3]
  simp [decimal_value]

end decimal_proofs

section reads_proofs

variable {α : Type} [LinearOrder α]

/-- Every position the loop of `compare_extents` reads is below the length of
the first store. -/
theorem compare_reads_lt_left (e1 e2 : extents α) :
    ∀ (fuel i : Nat), ∀ j ∈ compare_reads e1 e2 fuel i, j < e1.length := by
  intro fuel
  induction fuel with
  | zero => intro i j hj; simp [compare_reads] at hj
  | succ fuel ih =>
    intro i j hj
    unfold compare_reads at hj
    split_ifs at hj with hc
    · split at hj
      · split_ifs at hj
        · rcases List.mem_cons.mp hj with rfl | hj
          · exact hc.1
          · exact ih (i + 1) j hj
        · rw [List.mem_singleton.mp hj]
          exact hc.1
      · rw [List.mem_singleton.mp hj]
        exact hc.1
    · simp at hj

end reads_proofs


end Lvmts
